import Mathlib

/-!
Verification of the orchestrator's core components against their
natural-language specification.

The development shallowly embeds, in Lean, the parts of the Python code that
the checked properties depend on:

* `orchestrator/core_types.py` — `EnvironmentName` validation;
* `orchestrator/environments/bash.py` — the interactive shell driver
  (`BashEnvironment.handle_command`), with the pexpect child process modelled
  as an oracle stream of expect-round outcomes;
* `orchestrator/environments/editor.py` — the pattern view/edit engine
  (views, pattern matching, rendering cache, edit verification), with the
  file system and the regex engine modelled as explicit parameters.

Python strings are modelled by Lean `String` (so `len` counts characters,
exactly as Python's `len` on `str` does), Python lists by Lean `List`, and
Python `dict[int, ViewContent]` by an insertion-ordered `List ViewContent`.
Exceptions are modelled by `Except`/`Option` results.  The ASCII fragment of
Python's character classes for `str.strip`, `\s` and `\d` is modelled (all
commands the orchestrator parses with them are ASCII); `str.isidentifier`,
whose acceptance extends beyond ASCII, is modelled over an explicit oracle
for the Unicode XID character classes it consults.
-/

namespace Orch

/-- ASCII fragment of Python's whitespace test used by `str.strip()` and the
regex class `\s`. -/
def isPySpace (c : Char) : Bool :=
  c = ' ' || c = '\t' || c = '\n' || c = '\x0d' || c = '\x0b' || c = '\x0c'

/-- Python `str.strip()`: remove leading and trailing whitespace. -/
def pyStrip (s : String) : String :=
  ⟨(s.data.dropWhile isPySpace).reverse.dropWhile isPySpace |>.reverse⟩

/-- Python slice `l[a:b]` for integer bounds (negative indices count from the
end, and out-of-range bounds are clamped, as in Python). -/
def pySlice (l : List α) (a b : Int) : List α :=
  let n : Int := l.length
  let a' : Nat := (if a < 0 then max 0 (n + a) else min a n).toNat
  let b' : Nat := (if b < 0 then max 0 (n + b) else min b n).toNat
  (l.drop a').take (b' - a')

/-- Response from executing a command (`core_types.CommandResponse`). -/
structure CommandResponse where
  output : String
  success : Bool
deriving Repr, DecidableEq

/-- Content of an environment's screen section (`core_types.ScreenSection`). -/
structure ScreenSection where
  content : String
  max_lines : Nat
deriving Repr, DecidableEq

/-! ## `EnvironmentName` (`core_types.py`)

`EnvironmentName.__post_init__` validates with Python's `str.isidentifier()`
and raises `ValueError` on failure.  Per the language reference,
`isidentifier` accepts a nonempty string whose first character is in
XID_Start or is an underscore and whose remaining characters are in
XID_Continue.  The XID classes come from the Unicode character database,
which is external to the repository; they are modelled as an explicit
oracle (`UnicodeTables`).  Theorems constrain the oracle with documented
facts about the UCD: on ASCII, XID_Start is exactly the letters and
XID_Continue exactly letters, digits and underscore; beyond ASCII the
classes also contain characters that are no letter, digit or underscore,
such as U+203F UNDERTIE (category Pc, connector punctuation, hence in
XID_Continue per UAX #31 but in no class of the claimed syntax).
Construction is modelled as an `Option`-returning smart constructor
(`none` models the raised error). -/

/-- The Unicode character database columns consulted by
`str.isidentifier`. -/
structure UnicodeTables where
  xidStart : Char → Bool
  xidCont : Char → Bool

/-- ASCII range test (code point below 128). -/
def asciiChar (c : Char) : Bool :=
  c.toNat < 128

/-- Python's `str.isidentifier` over a Unicode-class oracle: nonempty,
first character XID_Start or underscore, rest XID_Continue. -/
def pyIsIdentifier (u : UnicodeTables) (s : String) : Bool :=
  match s.data with
  | [] => false
  | c :: cs => (u.xidStart c || c = '_') && cs.all u.xidCont

/-- Environment name (`core_types.EnvironmentName`). -/
structure EnvironmentName where
  value : String
deriving Repr, DecidableEq

/-- Validated construction of an `EnvironmentName`; `none` models the
`ValueError` raised by `__post_init__`. -/
def EnvironmentName.make (u : UnicodeTables) (s : String) : Option EnvironmentName :=
  if pyIsIdentifier u s then some ⟨s⟩ else none

/-- The UCD restricted to ASCII: XID_Start ∩ ASCII is the letters and
XID_Continue ∩ ASCII is letters, digits and underscore.  (It classifies
every non-ASCII character as outside both classes, so it is applied only
to ASCII strings.) -/
def asciiXid : UnicodeTables :=
  ⟨fun c => c.isAlpha, fun c => c.isAlphanum || c = '_'⟩

/-- The ASCII columns of the UCD extended with U+203F UNDERTIE, which
Unicode places in category Pc (connector punctuation): in XID_Continue,
not in XID_Start.  Faithful to the UCD on ASCII characters and U+203F —
the only characters it is applied to. -/
def undertieXid : UnicodeTables :=
  ⟨fun c => c.isAlpha, fun c => c.isAlphanum || c = '_' || c = '‿'⟩

/-- The claim's identifier syntax, stated from the spec's words: letters,
digits and underscores only, nonempty, not starting with a digit. -/
def specBareIdentifier (s : String) : Bool :=
  s.data ≠ [] &&
    s.data.all (fun c => c.isAlpha || c.isDigit || c = '_') &&
    !(s.data.headD '_').isDigit

/-! ## Bash environment (`environments/bash.py`)

`BashEnvironment` drives a bash child on a pseudo-terminal through pexpect.
The child is external to the repository, so it is modelled as an oracle
stream: `ChildIO.round k` is the text (or end-of-stream, or timeout) that the
`k`-th `expect_exact(PROMPT_MARKER)` round on a live child would deliver in
`self._process.before`.  A `BProc` is the `pexpect.spawn` handle: its `pid`
identifies the spawned child, `alive` becomes false once the stream reached
end-of-file (a dead pty yields EOF on every further round), and `consumed`
is the read position on the stream. -/

/-- `BashEnvironment.MAX_OUTPUT_SIZE` (`10 * 1024 * 1024`). -/
def MAX_OUTPUT_SIZE : Nat := 10 * 1024 * 1024

/-- The truncation notice appended by `handle_command` when the captured
output exceeds `MAX_OUTPUT_SIZE`. -/
def truncationNotice : String :=
  "\n\n[WARNING: Output truncated at " ++ toString MAX_OUTPUT_SIZE ++ " bytes]"

/-- Step 5 of `handle_command`: `if len(output) > self.MAX_OUTPUT_SIZE:
output = output[:self.MAX_OUTPUT_SIZE]; output += notice`.  Python's `len`
on a decoded `str` counts characters, and the slice takes characters. -/
def truncateOutput (s : String) : String :=
  if s.length > MAX_OUTPUT_SIZE then
    String.mk (s.data.take MAX_OUTPUT_SIZE) ++ truncationNotice
  else s

/-- Number of bytes of the UTF-8 encoding of a string (what a true byte
ceiling would measure). -/
def utf8Len (s : String) : Nat :=
  (s.data.map Char.utf8Size).sum

/-- Outcome of one `expect_exact(PROMPT_MARKER)` round. -/
inductive RoundOut where
  | out (before : String)
  | eof
  | timeout
deriving Repr, DecidableEq

/-- A `pexpect.spawn` handle for the bash child. -/
structure BProc where
  pid : Nat
  alive : Bool
  consumed : Nat
deriving Repr, DecidableEq

/-- Oracle describing the external child's behaviour: the outcome of each
successive expect round on a live child, and the pid a new spawn would get. -/
structure ChildIO where
  round : Nat → RoundOut
  freshPid : Nat

/-- One send/expect round against the child.  A handle whose stream already
reached end-of-file delivers EOF immediately on every further round. -/
def sendExpect (io : ChildIO) (p : BProc) : BProc × RoundOut :=
  if p.alive then
    match io.round p.consumed with
    | .eof => ({ p with alive := false, consumed := p.consumed + 1 }, .eof)
    | r => ({ p with consumed := p.consumed + 1 }, r)
  else (p, .eof)

/-- Mutable state of `BashEnvironment`. -/
structure BashState where
  process : Option BProc
  used : Bool
  cwd : String
  exit_code : Int
  background_jobs : List String
deriving Repr, DecidableEq

/-- The pexpect exceptions caught in `handle_command`. -/
inductive PexpectErr where
  | eofE
  | timeoutE
deriving Repr, DecidableEq

/-- The failed responses produced by the `except pexpect.EOF` and
`except pexpect.TIMEOUT` handlers of `BashEnvironment.handle_command`. -/
def errResponse : PexpectErr → CommandResponse
  | .eofE => ⟨"Bash process terminated unexpectedly", false⟩
  | .timeoutE => ⟨"Command timed out (prompt not detected)", false⟩

/-- Perform one expect round on the environment's current process handle,
recording the advanced handle in the state. -/
def doRound (io : ChildIO) (st : BashState) : BashState × Except PexpectErr String :=
  match st.process with
  | none => (st, .error .eofE)
  | some p =>
    match sendExpect io p with
    | (p', .out b) => ({ st with process := some p' }, .ok b)
    | (p', .eof) => ({ st with process := some p' }, .error .eofE)
    | (p', .timeout) => ({ st with process := some p' }, .error .timeoutE)

/-- Python `int(s)`: optional sign followed by digits (ASCII fragment);
`none` models the raised `ValueError`. -/
def pyParseInt (s : String) : Option Int :=
  match s.data with
  | [] => none
  | '-' :: ds =>
    if ds ≠ [] && ds.all Char.isDigit then some (-(digitsVal ds : Int)) else none
  | '+' :: ds =>
    if ds ≠ [] && ds.all Char.isDigit then some ((digitsVal ds : Nat) : Int) else none
  | ds =>
    if ds.all Char.isDigit then some ((digitsVal ds : Nat) : Int) else none
where
  /-- Decimal value of a digit list. -/
  digitsVal (ds : List Char) : Nat :=
    ds.foldl (fun n c => n * 10 + (c.toNat - '0'.toNat)) 0

/-- Does a line match `re.match(r"\[\d+\]", line)` — `[`, one or more digits,
`]`, anywhere at the start of the line? -/
def jobLineMatches (line : String) : Bool :=
  match line.data with
  | '[' :: rest =>
    let ds := rest.takeWhile Char.isDigit
    ds ≠ [] && (rest.drop ds.length).headD ' ' = ']'
  | _ => false

/-- `BashEnvironment._start_process`: spawn the child, set the prompt marker
(one expect round whose output is discarded), then probe `pwd` (a second
round).  On EOF/timeout the pexpect exception propagates to the caller; the
spawned handle stays assigned and `_used` is not set. -/
def startProcess (io : ChildIO) (st : BashState) : BashState × Option PexpectErr :=
  let st0 := { st with process := some ⟨io.freshPid, true, 0⟩ }
  match doRound io st0 with
  | (st1, .error e) => (st1, some e)
  | (st1, .ok _) =>
    match doRound io st1 with
    | (st2, .error e) => (st2, some e)
    | (st2, .ok before) =>
      let pwd := pyStrip before
      let st3 := if pwd ≠ "" && pwd.startsWith "/" then { st2 with cwd := pwd } else st2
      ({ st3 with used := true }, none)

/-- `BashEnvironment._update_state_after_command`: probe `echo $?` (keeping
the previous exit code if the output does not parse as an integer), then
`pwd` (keeping the previous directory unless the output looks absolute).
A pexpect fault propagates to the caller. -/
def updateStateAfterCommand (io : ChildIO) (st : BashState) : BashState × Option PexpectErr :=
  match doRound io st with
  | (st1, .error e) => (st1, some e)
  | (st1, .ok ecOut) =>
    let st1' := match pyParseInt (pyStrip ecOut) with
      | some k => { st1 with exit_code := k }
      | none => st1
    match doRound io st1' with
    | (st2, .error e) => (st2, some e)
    | (st2, .ok pwdOut) =>
      let pwd := pyStrip pwdOut
      (if pwd != "" && pwd.startsWith "/" then { st2 with cwd := pwd } else st2, none)

/-- `BashEnvironment._update_background_jobs`: probe `jobs` and keep the
nonempty lines that start with a `[<digits>]` marker, each stripped. -/
def updateBackgroundJobs (io : ChildIO) (st : BashState) : BashState × Option PexpectErr :=
  match doRound io st with
  | (st1, .error e) => (st1, some e)
  | (st1, .ok jOut) =>
    ({ st1 with background_jobs := ((pyStrip jOut).splitOn "\n").filterMap (fun line =>
        if line != "" && jobLineMatches line then some (pyStrip line) else none) }, none)

/-- `BashEnvironment.handle_command`: start the child lazily, send the
command, capture output up to the prompt marker, truncate, then run the
`echo $?`, `pwd` and `jobs` probe rounds, and report success iff the probed
exit code is zero.  Every pexpect EOF/timeout is caught and converted to a
failed response; state mutated before the fault is kept. -/
def bashHandle (io : ChildIO) (st : BashState) (_cmd : String) : BashState × CommandResponse :=
  let (st1, err?) := match st.process with
    | none => startProcess io st
    | some _ => (st, none)
  match err? with
  | some e => (st1, errResponse e)
  | none =>
    match doRound io st1 with
    | (st2, .error e) => (st2, errResponse e)
    | (st2, .ok before) =>
      let output := truncateOutput (pyStrip before)
      match updateStateAfterCommand io st2 with
      | (st3, some e) => (st3, errResponse e)
      | (st3, none) =>
        match updateBackgroundJobs io st3 with
        | (st4, some e) => (st4, errResponse e)
        | (st4, none) => (st4, CommandResponse.mk output (st4.exit_code == 0))

/-! ## Editor environment (`environments/editor.py`)

The editor reads and writes files only through `_read_file_lines` (lines with
trailing newlines stripped) and `write_text("\n".join(lines) + "\n")`, so the
file system is modelled at line granularity: a map from resolved path strings
to an optional `PFile` (its binary flag — a null byte in the first 8 KiB —
and its lines).  Directories are not in the map, so `is_file` is membership.
`glob.glob(pattern, recursive=True)` is external and modelled as an oracle
field; it does not raise in the model, so the `except` branch around it is
dead.  Python's `re` is external too: a `RegexEngine` maps a pattern source
to either a line predicate (`re.search` on one line) or a compile error
message (`re.error`).  Paths are compared as strings, which matches `Path`
equality for normalised path strings. -/

/-- A text or binary file as the editor sees it. -/
structure PFile where
  isBin : Bool
  lines : List String

/-- File system oracle: files by resolved path, plus glob expansion. -/
structure FS where
  files : String → Option PFile
  globRes : String → List String

/-- `Path.exists()` on a file path. -/
def fsExists (fs : FS) (p : String) : Bool := (fs.files p).isSome

/-- `EditorEnvironment._is_binary_file` (False for unreadable/missing files,
since the exception handler returns False). -/
def isBinaryFile (fs : FS) (p : String) : Bool :=
  match fs.files p with
  | some f => f.isBin
  | none => false

/-- `EditorEnvironment._read_file_lines`: `none` for binary or unreadable
files, otherwise the lines with trailing newlines stripped. -/
def readFileLines (fs : FS) (p : String) : Option (List String) :=
  match fs.files p with
  | some f => if f.isBin then none else some f.lines
  | none => none

/-- `write_text("\n".join(lines) + "\n")`: replace the file's content. -/
def writeFile (fs : FS) (p : String) (ls : List String) : FS :=
  { fs with files := fun q => if q = p then some ⟨false, ls⟩ else fs.files q }

/-- `self._project_dir / rel` for POSIX pathlib: an absolute right operand
(leading `/`) replaces the root. -/
def resolve (root rel : String) : String :=
  match rel.data with
  | '/' :: _ => rel
  | _ => root ++ "/" ++ rel

/-- Regex engine oracle: compile a pattern to a per-line `re.search`
predicate, or fail with the `re.error` message. -/
def RegexEngine : Type := String → Except String (String → Bool)

/-- `EditorEnvironment.MAX_VIEWS`. -/
def MAX_VIEWS : Nat := 3

/-- `EditorEnvironment.MAX_SEARCH_LINES`. -/
def MAX_SEARCH_LINES : Nat := 1000

/-- `EditorEnvironment.MAX_LINE_LENGTH`. -/
def MAX_LINE_LENGTH : Nat := 200

/-- `editor.PatternMatch`: one span matched by a start/end pattern pair
(1-based inclusive line numbers). -/
structure PatternMatch where
  start_line : Nat
  end_line : Nat
  lines : List String
  truncated : Bool
deriving Repr, DecidableEq

/-- The inner loop of `_find_pattern_matches`: `for j in range(i + 1,
min(i + 1 + MAX_SEARCH_LINES, len(lines)))`, breaking at the first line where
the end pattern matches.  `lines[i+1 : i+1+MAX_SEARCH_LINES]` is exactly that
index range, and `findIdx?` is the first hit in it. -/
def matchAt (endP : String → Bool) (lines : List String) (i : Nat) : PatternMatch :=
  let start_line := i + 1
  match ((lines.drop (i + 1)).take MAX_SEARCH_LINES).findIdx? endP with
  | some r =>
    let end_line := (i + 1 + r) + 1
    ⟨start_line, end_line, (lines.drop (start_line - 1)).take (end_line - (start_line - 1)), false⟩
  | none =>
    let end_line := min (start_line + MAX_SEARCH_LINES - 1) lines.length
    ⟨start_line, end_line, (lines.drop (start_line - 1)).take (end_line - (start_line - 1)), true⟩

/-- The outer `while i < len(lines)` loop of `_find_pattern_matches`: start a
match at each line where the start pattern matches, then resume scanning at
`i = end_line` (0-based: strictly after the match's last line). -/
def fpmAux (startP endP : String → Bool) (lines : List String) (i : Nat) : List PatternMatch :=
  if h : i < lines.length then
    if startP (lines.getD i "") then
      let m := matchAt endP lines i
      m :: fpmAux startP endP lines m.end_line
    else
      fpmAux startP endP lines (i + 1)
  else []
termination_by lines.length - i
decreasing_by
  · simp only [matchAt]
    rcases hF : ((lines.drop (i + 1)).take MAX_SEARCH_LINES).findIdx? endP with _ | r <;>
      simp only [hF, MAX_SEARCH_LINES] <;> omega
  · omega

/-- `_find_pattern_matches` on already-compiled patterns. -/
def findPatternMatchesP (startP endP : String → Bool) (lines : List String) : List PatternMatch :=
  fpmAux startP endP lines 0

/-- `EditorEnvironment._find_pattern_matches`: read the file (empty result
for binary/unreadable files), compile both patterns (empty result on
`re.error`), then scan. -/
def findPatternMatches (re : RegexEngine) (fs : FS) (path sp ep : String) : List PatternMatch :=
  match readFileLines fs path with
  | none => []
  | some lines =>
    match re sp, re ep with
    | .ok f, .ok g => findPatternMatchesP f g lines
    | _, _ => []

/-- `editor.View`: a pattern-bounded window into a file.  The match index is
a Python `int` (it can be stepped with `%`), hence `Int`. -/
structure View where
  view_id : Nat
  filepath : String
  start_pattern : String
  end_pattern : String
  current_match_index : Int
  label : Option String
deriving Repr, DecidableEq

/-- `editor.ViewContent`: cached render of a view, used for edit
verification. -/
structure ViewContent where
  view_id : Nat
  filepath : String
  start_line : Nat
  end_line : Nat
  lines : List String
deriving Repr, DecidableEq

/-- Mutable state of `EditorEnvironment`.  `self._cached_content` is a
`dict[int, ViewContent]` with unique keys, iterated in insertion order,
modelled as an insertion-ordered list. -/
structure EditorState where
  used : Bool
  views : List View
  next_view_id : Nat
  cached : List ViewContent
deriving Repr, DecidableEq

/-- Placeholder for the out-of-range default of list indexing (never
selected: indices are taken modulo the list length). -/
def dummyMatch : PatternMatch := ⟨0, 0, [], false⟩

/-- `EditorEnvironment._generate_view_content`: `None` if the file is gone
or the patterns yield no match, else the match at `current_match_index %
len(matches)` (Python `%`, i.e. `Int.emod`) with the total count. -/
def generateViewContent (root : String) (re : RegexEngine) (fs : FS) (v : View) :
    Option (PatternMatch × Nat) :=
  let full := resolve root v.filepath
  if fsExists fs full then
    let ms := findPatternMatches re fs full v.start_pattern v.end_pattern
    if ms.isEmpty then none
    else some (ms.getD ((v.current_match_index % (ms.length : Int)).toNat) dummyMatch, ms.length)
  else none

/-- Truncate an over-long display line: `line[:MAX_LINE_LENGTH] + "..."`. -/
def truncLine (line : String) : String :=
  if line.length > MAX_LINE_LENGTH then
    String.mk (line.data.take MAX_LINE_LENGTH) ++ "..."
  else line

/-- Python's `f"{n:6d}"`: right-align in at least 6 characters. -/
def padNum6 (n : Nat) : String :=
  let s := toString n
  String.mk (List.replicate (6 - s.length) ' ') ++ s

/-- `EditorEnvironment._format_view_for_screen`. -/
def formatViewForScreen (v : View) (m : PatternMatch) (total : Nat) : List String :=
  let matchInfo := "(match " ++ toString (v.current_match_index + 1) ++ "/" ++ toString total ++ ")"
  let labelInfo := match v.label with
    | some l => " \"" ++ l ++ "\""
    | none => ""
  let header := "[" ++ toString v.view_id ++ "] " ++ v.filepath ++ " /" ++ v.start_pattern
    ++ "/ to /" ++ v.end_pattern ++ "/ " ++ matchInfo ++ labelInfo
  let content := m.lines.enum.map (fun il =>
    padNum6 (m.start_line + il.1) ++ "  " ++ truncLine il.2)
  header :: content ++
    (if m.truncated then
      ["       [TRUNCATED: end pattern not found within " ++ toString MAX_SEARCH_LINES ++ " lines]"]
    else [])

/-- The screen line for a view whose patterns no longer match. -/
def brokenLine (v : View) : String :=
  "  [" ++ toString v.view_id ++ "] " ++ v.filepath ++ " [BROKEN: patterns not found]"

/-- `EditorEnvironment.get_screen`: before first use (or with no views) a
fixed banner; otherwise clear the render cache, re-render every view (caching
span and lines for views that still match, marking the others broken), then
drop the broken views from the view list. -/
def getScreen (root : String) (re : RegexEngine) (fs : FS) (st : EditorState) :
    EditorState × ScreenSection :=
  if !st.used || st.views.isEmpty then (st, ⟨"Editor (no views)", 50⟩)
  else
    let results := st.views.map (fun v => (v, generateViewContent root re fs v))
    let cached' := results.filterMap (fun vr =>
      match vr.2 with
      | some (m, _) =>
        some (⟨vr.1.view_id, vr.1.filepath, m.start_line, m.end_line, m.lines⟩ : ViewContent)
      | none => none)
    let screenLines := "Views:" :: results.flatMap (fun vr =>
      match vr.2 with
      | none => [brokenLine vr.1]
      | some (m, t) => (formatViewForScreen vr.1 m t).map (fun l => "  " ++ l) ++ [""])
    let views' := st.views.filter (fun v => (generateViewContent root re fs v).isSome)
    ({ st with views := views', cached := cached' },
     ⟨String.intercalate "\n" screenLines, 50⟩)

/-- Placeholder view for `headD` (never selected: the head is taken only
when the list is non-empty). -/
def defaultView : View := ⟨0, "", "", "", 0, none⟩

/-- `EditorEnvironment._handle_view` after command parsing: reject missing
or binary files, evict the oldest view (and its cached render) at the
capacity limit, append the new view with a fresh id, and report the match
count found right now. -/
def handleViewParsed (root : String) (re : RegexEngine) (fs : FS) (st : EditorState)
    (path sp ep : String) (label : Option String) : EditorState × CommandResponse :=
  let full := resolve root path
  if !fsExists fs full then
    (st, ⟨"File not found: " ++ path, false⟩)
  else if isBinaryFile fs full then
    (st, ⟨"Cannot view binary file: " ++ path, false⟩)
  else
    let views1 :=
      if st.views.length ≥ MAX_VIEWS then st.views.drop 1 else st.views
    let cached1 :=
      if st.views.length ≥ MAX_VIEWS then
        st.cached.filter (fun c => c.view_id ≠ (st.views.headD defaultView).view_id)
      else st.cached
    let v : View := ⟨st.next_view_id, path, sp, ep, 0, label⟩
    let st' : EditorState := ⟨true, views1 ++ [v], st.next_view_id + 1, cached1⟩
    match generateViewContent root re fs v with
    | none =>
      (st', ⟨"Added view [" ++ toString v.view_id ++ "] " ++ path ++ " /" ++ sp ++ "/ to /"
        ++ ep ++ "/ (patterns not found)", true⟩)
    | some (_, total) =>
      (st', ⟨"Added view [" ++ toString v.view_id ++ "] " ++ path ++ " /" ++ sp ++ "/ to /"
        ++ ep ++ "/ (" ++ toString total ++ " match" ++ (if total != 1 then "es" else "")
        ++ ")", true⟩)

/-- `next((v for v in self._views if v.view_id == view_id), None)`. -/
def findView (st : EditorState) (id : Nat) : Option View :=
  st.views.find? (fun v => v.view_id == id)

/-- Remove the first view with the given id (`self._views.remove(view)`). -/
def removeFirstView : List View → Nat → List View
  | [], _ => []
  | v :: rest, id => if v.view_id = id then rest else v :: removeFirstView rest id

/-- Mutate the first view with the given id in place. -/
def updateFirstView : List View → Nat → (View → View) → List View
  | [], _, _ => []
  | v :: rest, id, f =>
    if v.view_id = id then f v :: rest else v :: updateFirstView rest id f

/-- `EditorEnvironment._handle_close`. -/
def handleClose (st : EditorState) (id : Nat) : EditorState × CommandResponse :=
  match findView st id with
  | none => (st, ⟨"View [" ++ toString id ++ "] not found", false⟩)
  | some _ =>
    ({ st with
        views := removeFirstView st.views id,
        cached := st.cached.filter (fun c => c.view_id ≠ id) },
     ⟨"Closed view [" ++ toString id ++ "]", true⟩)

/-- `EditorEnvironment._handle_next_match`: recompute the match set, fail on
a view with none, else advance the index modulo the match count. -/
def handleNextMatch (root : String) (re : RegexEngine) (fs : FS) (st : EditorState)
    (id : Nat) : EditorState × CommandResponse :=
  match findView st id with
  | none => (st, ⟨"View [" ++ toString id ++ "] not found", false⟩)
  | some v =>
    match generateViewContent root re fs v with
    | none => (st, ⟨"View [" ++ toString id ++ "] has no matches", false⟩)
    | some (_, total) =>
      let newIdx := (v.current_match_index + 1) % (total : Int)
      ({ st with views :=
          updateFirstView st.views id (fun w => { w with current_match_index := newIdx }) },
       ⟨"Showing match " ++ toString (newIdx + 1) ++ "/" ++ toString total, true⟩)

/-- `EditorEnvironment._handle_prev_match`: as `next_match`, stepping the
index backwards (Python `%` keeps it non-negative). -/
def handlePrevMatch (root : String) (re : RegexEngine) (fs : FS) (st : EditorState)
    (id : Nat) : EditorState × CommandResponse :=
  match findView st id with
  | none => (st, ⟨"View [" ++ toString id ++ "] not found", false⟩)
  | some v =>
    match generateViewContent root re fs v with
    | none => (st, ⟨"View [" ++ toString id ++ "] has no matches", false⟩)
    | some (_, total) =>
      let newIdx := (v.current_match_index - 1) % (total : Int)
      ({ st with views :=
          updateFirstView st.views id (fun w => { w with current_match_index := newIdx }) },
       ⟨"Showing match " ++ toString (newIdx + 1) ++ "/" ++ toString total, true⟩)

/-- Decimal value of a digit string, as `int()` computes it. -/
def digitsToNat (ds : List Char) : Nat :=
  ds.foldl (fun n c => n * 10 + (c.toNat - '0'.toNat)) 0

/-- `re.match(r"edit\s+(\S+)\s+(\d+)-(\d+)$", cmd_lines[0].strip())` of
`_parse_edit_command`, as a character-level scanner.  Each quantified piece
(`\s+`, `\S+`, `\d+`) is matched maximally; for this pattern maximal munch
coincides with the backtracking regex semantics, because every boundary is a
change of character class and `$` anchors the end. -/
def parseEditFirstLine (line0 : String) : Option (String × Nat × Nat) :=
  let cs := (pyStrip line0).data
  if cs.take 4 = ['e', 'd', 'i', 't'] then
    let rest := cs.drop 4
    let ws1 := rest.takeWhile isPySpace
    if ws1.isEmpty then none else
    let r1 := rest.drop ws1.length
    let tok := r1.takeWhile (fun c => !isPySpace c)
    if tok.isEmpty then none else
    let r2 := r1.drop tok.length
    let ws2 := r2.takeWhile isPySpace
    if ws2.isEmpty then none else
    let r3 := r2.drop ws2.length
    let d1 := r3.takeWhile Char.isDigit
    if d1.isEmpty then none else
    match r3.drop d1.length with
    | c :: r5 =>
      if c = '-' then
        let d2 := r5.takeWhile Char.isDigit
        if d2.isEmpty then none
        else if (r5.drop d2.length).isEmpty then
          some (String.mk tok, digitsToNat d1, digitsToNat d2)
        else none
      else none
    | [] => none
  else none

/-- `EditorEnvironment._parse_edit_command`: first line gives path and
bounds, the remaining command lines are the replacement content. -/
def parseEditCommand (cmdLines : List String) : Option (String × Nat × Nat × List String) :=
  match cmdLines with
  | [] => none
  | l0 :: rest =>
    match parseEditFirstLine l0 with
    | none => none
    | some (p, s, e) => some (p, s, e, rest)

/-- The staleness-conflict failure message of `_handle_edit`. -/
def stalenessMsg (path : String) : String :=
  "File " ++ path ++ " has changed since view was generated. Cannot safely edit. Please refresh view."

/-- The not-visible-in-any-view failure message of `_handle_edit`. -/
def notVisibleMsg (path : String) (s e : Nat) : String :=
  "Can only edit lines visible in a view. Lines " ++ toString s ++ "-" ++ toString e
    ++ " not in any view of " ++ path

/-- The per-cache test of `_handle_edit`'s view lookup: same file and a span
containing `[start_line, end_line]`. -/
def containsSpan (path : String) (s e : Nat) (c : ViewContent) : Bool :=
  c.filepath == path && c.start_line ≤ s && e ≤ c.end_line

/-- `EditorEnvironment._handle_edit` after parsing: find the first cached
render (in insertion order) covering the requested span, re-read the file,
compare the slice at the cached span (`lines[start-1 : end]`, Python slice
semantics) against the cached lines, and only on an exact match splice the
new content over `lines[:start_line-1]` / `lines[end_line:]` and rewrite the
file. -/
def handleEditParsed (root : String) (fs : FS) (st : EditorState)
    (path : String) (start_line end_line : Nat) (new_content : List String) :
    FS × CommandResponse :=
  match st.cached.find? (containsSpan path start_line end_line) with
  | none => (fs, ⟨notVisibleMsg path start_line end_line, false⟩)
  | some vc =>
    let full := resolve root path
    match readFileLines fs full with
    | none => (fs, ⟨"Cannot read file: " ++ path, false⟩)
    | some lines =>
      let currentCached := pySlice lines ((vc.start_line : Int) - 1) (vc.end_line : Int)
      if currentCached ≠ vc.lines then
        (fs, ⟨stalenessMsg path, false⟩)
      else
        let newLines :=
          pySlice lines 0 ((start_line : Int) - 1) ++ new_content ++ lines.drop end_line
        (writeFile fs full newLines,
         ⟨"Edited " ++ path ++ " lines " ++ toString start_line ++ "-" ++ toString end_line,
          true⟩)

/-- `EditorEnvironment._handle_edit` including its command parsing. -/
def handleEdit (root : String) (fs : FS) (st : EditorState) (cmdLines : List String) :
    FS × CommandResponse :=
  match parseEditCommand cmdLines with
  | none =>
    (fs, ⟨"Invalid edit command. Format: edit <filepath> <start_line>-<end_line>\\n<new content>",
      false⟩)
  | some (p, s, e, content) => handleEditParsed root fs st p s e content

/-- `EditorEnvironment._handle_create` after parsing: refuse to overwrite,
otherwise write the new file (directory creation and the write are modelled
as succeeding). -/
def handleCreateParsed (root : String) (fs : FS) (path : String) (content : List String) :
    FS × CommandResponse :=
  let full := resolve root path
  if fsExists fs full then (fs, ⟨"File already exists: " ++ path, false⟩)
  else (writeFile fs full content, ⟨"Created " ++ path, true⟩)

/-- `PurePath.relative_to` for POSIX paths: strip the root prefix, raising
`ValueError` (the `Except.error`) when the path is not under the root.  This
call in `_handle_search` is not inside any `try` block. -/
def relativeTo (p root : String) : Except String String :=
  if p = root then .ok "."
  else if (root ++ "/").data.isPrefixOf p.data then
    .ok (String.mk (p.data.drop (root.length + 1)))
  else .error ("'" ++ p ++ "' is not in the subpath of '" ++ root ++ "'")

/-- The matching-lines loop of `_handle_search` for one file
(`enumerate(lines, start=1)`); the uncaught `relative_to` fault aborts the
whole command. -/
def searchMatchesInFile (pred : String → Bool) (root fp : String) :
    Nat → List String → Except String (List String)
  | _, [] => .ok []
  | n, l :: rest =>
    if pred l then
      match relativeTo fp root with
      | .error e => .error e
      | .ok rel =>
        match searchMatchesInFile pred root fp (n + 1) rest with
        | .error e => .error e
        | .ok ms => .ok ((rel ++ ":" ++ toString n ++ ": " ++ truncLine l) :: ms)
    else searchMatchesInFile pred root fp (n + 1) rest

/-- The file loop of `_handle_search`: skip non-files (directories and glob
hits that are not in the file map) and binary or unreadable files, collect
`path:line: content` rows from the rest. -/
def searchFiles (pred : String → Bool) (root : String) (fs : FS) :
    List String → Except String (List String)
  | [] => .ok []
  | fp :: rest =>
    if !fsExists fs fp then searchFiles pred root fs rest
    else if isBinaryFile fs fp then searchFiles pred root fs rest
    else
      match readFileLines fs fp with
      | none => searchFiles pred root fs rest
      | some lines =>
        match searchMatchesInFile pred root fp 1 lines with
        | .error e => .error e
        | .ok ms =>
          match searchFiles pred root fs rest with
          | .error e => .error e
          | .ok ms' => .ok (ms ++ ms')

/-- `EditorEnvironment._handle_search` after parsing: compile the pattern
(failed response on `re.error`), expand the glob relative to the project
root, scan every matching file.  An empty result is a successful "No matches
found" response.  A `ValueError` from `relative_to` escapes uncaught. -/
def handleSearchParsed (root : String) (re : RegexEngine) (fs : FS)
    (pattern globPat : String) : Except String CommandResponse :=
  match re pattern with
  | .error e => .ok ⟨"Invalid regex pattern: " ++ e, false⟩
  | .ok pred =>
    let paths := fs.globRes (resolve root globPat)
    match searchFiles pred root fs paths with
    | .error e => .error e
    | .ok [] => .ok ⟨"No matches found", true⟩
    | .ok ms => .ok ⟨"Matches:\n" ++ String.intercalate "\n" ms, true⟩

/-- The editor commands as dispatched by `EditorEnvironment.handle_command`:
each constructor is one dispatch outcome (for `view`, `create`, `close`,
`next_match`, `prev_match` and `search` the sub-command parse result, with an
`Invalid` constructor for a failed parse; `edit` keeps the raw command lines
because `_handle_edit` parses them itself). -/
inductive ECmd where
  | view (path sp ep : String) (label : Option String)
  | viewInvalid
  | edit (cmdLines : List String)
  | create (path : String) (content : List String)
  | createInvalid
  | close (id : Nat)
  | closeInvalid
  | nextMatch (id : Nat)
  | nextMatchInvalid
  | prevMatch (id : Nat)
  | prevMatchInvalid
  | search (pattern globPat : String)
  | searchInvalid
  | unknown (firstLine : String)

/-- `EditorEnvironment.handle_command`: route one command to its handler.
The result is the final state, the final file system and either the response
or an uncaught Python exception (`Except.error`) — the editor, unlike the
bash and python environments, has no catch-all around its handlers. -/
def editorStep (root : String) (re : RegexEngine) (fs : FS) (st : EditorState) :
    ECmd → EditorState × FS × Except String CommandResponse
  | .view p sp ep lab =>
    let (st', r) := handleViewParsed root re fs st p sp ep lab
    (st', fs, .ok r)
  | .viewInvalid =>
    (st, fs, .ok ⟨"Invalid view command. Format: view <filepath> /<start_pattern>/ /<end_pattern>/ [<label>]", false⟩)
  | .edit cmdLines =>
    let (fs', r) := handleEdit root fs st cmdLines
    (st, fs', .ok r)
  | .create p content =>
    let (fs', r) := handleCreateParsed root fs p content
    (st, fs', .ok r)
  | .createInvalid =>
    (st, fs, .ok ⟨"Invalid create command. Format: create <filepath>\\n<content>", false⟩)
  | .close id =>
    let (st', r) := handleClose st id
    (st', fs, .ok r)
  | .closeInvalid =>
    (st, fs, .ok ⟨"Invalid close command. Format: close <view_id>", false⟩)
  | .nextMatch id =>
    let (st', r) := handleNextMatch root re fs st id
    (st', fs, .ok r)
  | .nextMatchInvalid =>
    (st, fs, .ok ⟨"Invalid next_match command. Format: next_match <view_id>", false⟩)
  | .prevMatch id =>
    let (st', r) := handlePrevMatch root re fs st id
    (st', fs, .ok r)
  | .prevMatchInvalid =>
    (st, fs, .ok ⟨"Invalid prev_match command. Format: prev_match <view_id>", false⟩)
  | .search pat g =>
    (st, fs, handleSearchParsed root re fs pat g)
  | .searchInvalid =>
    (st, fs, .ok ⟨"Invalid search command. Format: search \"<pattern>\" <glob>", false⟩)
  | .unknown fl =>
    (st, fs, .ok ⟨"Unknown command: " ++ fl, false⟩)

/-! ## Helper lemmas -/

theorem char_digit_not_alpha (c : Char) (h : c.isDigit = true) : c.isAlpha = false := by
  have e48 : (UInt32.toBitVec 48).toNat = 48 := rfl
  have e57 : (UInt32.toBitVec 57).toNat = 57 := rfl
  have e65 : (UInt32.toBitVec 65).toNat = 65 := rfl
  have e90 : (UInt32.toBitVec 90).toNat = 90 := rfl
  have e97 : (UInt32.toBitVec 97).toNat = 97 := rfl
  have e122 : (UInt32.toBitVec 122).toNat = 122 := rfl
  rw [Bool.eq_false_iff]
  intro hA
  simp only [Char.isDigit, Char.isAlpha, Char.isUpper, Char.isLower,
    Bool.and_eq_true, Bool.or_eq_true, decide_eq_true_eq,
    UInt32.le_def, BitVec.le_def, e48, e57, e65, e90, e97, e122] at h hA
  omega

theorem char_digit_ne_underscore (c : Char) (h : c.isDigit = true) : (c = '_') = False := by
  simp only [eq_iff_iff, iff_false]
  rintro rfl
  simp [Char.isDigit] at h

/-- For an oracle agreeing with the UCD on ASCII, XID_Continue membership of
an all-ASCII tail coincides with the letters/digits/underscore test. -/
theorem all_xidCont_eq_spec (u : UnicodeTables)
    (hcont : ∀ c, asciiChar c = true → u.xidCont c = (c.isAlphanum || c = '_')) :
    ∀ (cs : List Char), cs.all asciiChar = true →
      cs.all u.xidCont = cs.all (fun d => d.isAlpha || d.isDigit || d = '_') := by
  intro cs
  induction cs with
  | nil => intro _; rfl
  | cons d ds ih =>
    intro hcsa
    simp only [List.all_cons, Bool.and_eq_true] at hcsa
    obtain ⟨hda, hdsa⟩ := hcsa
    simp [List.all_cons, hcont d hda, ih hdsa, Char.isAlphanum, Bool.or_assoc]

/-- On ASCII strings, and for any oracle agreeing with the UCD on ASCII
characters, the validator of `EnvironmentName` agrees with the spec's
identifier syntax. -/
theorem pyIsIdentifier_eq_spec (u : UnicodeTables)
    (hstart : ∀ c, asciiChar c = true → u.xidStart c = c.isAlpha)
    (hcont : ∀ c, asciiChar c = true → u.xidCont c = (c.isAlphanum || c = '_'))
    (s : String) (hascii : s.data.all asciiChar = true) :
    pyIsIdentifier u s = specBareIdentifier s := by
  unfold pyIsIdentifier specBareIdentifier
  cases hd : s.data with
  | nil => simp
  | cons c cs =>
    rw [hd] at hascii
    simp only [List.all_cons, Bool.and_eq_true] at hascii
    obtain ⟨hca, hcsa⟩ := hascii
    have hall := all_xidCont_eq_spec u hcont cs hcsa
    by_cases hdg : c.isDigit = true
    · have h1 := char_digit_not_alpha c hdg
      have h2 := char_digit_ne_underscore c hdg
      simp [List.all_cons, hstart c hca, hall, h1, hdg, h2]
    · have hdg' : c.isDigit = false := by revert hdg; cases c.isDigit <;> simp
      simp [List.all_cons, hstart c hca, hall, hdg']

theorem dropWhile_replicate_of_neg {p : α → Bool} {a : α} (n : Nat) (h : p a = false) :
    List.dropWhile p (List.replicate n a) = List.replicate n a := by
  induction n with
  | zero => rfl
  | succ k ih => simp [List.replicate_succ, List.dropWhile_cons, h]

theorem pyStrip_replicate (n : Nat) (c : Char) (h : isPySpace c = false) :
    pyStrip (String.mk (List.replicate n c)) = String.mk (List.replicate n c) := by
  simp [pyStrip, dropWhile_replicate_of_neg _ h, List.reverse_replicate]

theorem length_mk_replicate (n : Nat) (c : Char) :
    (String.mk (List.replicate n c)).length = n := by
  simp [String.length]

theorem utf8Len_mk_replicate (n : Nat) (c : Char) :
    utf8Len (String.mk (List.replicate n c)) = n * c.utf8Size := by
  simp [utf8Len, List.map_replicate, List.sum_replicate, smul_eq_mul]

theorem updateStateAfterCommand_ok (io : ChildIO) (st : BashState) (p : BProc)
    (ec pwd : String) (hp : st.process = some p) (halive : p.alive = true)
    (h1 : io.round p.consumed = .out ec)
    (h2 : io.round (p.consumed + 1) = .out pwd) :
    ∃ st', updateStateAfterCommand io st = (st', none) ∧
      st'.process = some ⟨p.pid, true, p.consumed + 1 + 1⟩ := by
  cases hec : pyParseInt (pyStrip ec) <;>
    by_cases hpw : (pyStrip pwd != "" && (pyStrip pwd).startsWith "/") = true <;>
    simp [updateStateAfterCommand, doRound, hp, sendExpect, halive, h1, h2, hec, hpw]

theorem updateBackgroundJobs_ok (io : ChildIO) (st : BashState) (p : BProc)
    (jb : String) (hp : st.process = some p) (halive : p.alive = true)
    (h1 : io.round p.consumed = .out jb) :
    ∃ st', updateBackgroundJobs io st = (st', none) := by
  simp [updateBackgroundJobs, doRound, hp, sendExpect, halive, h1]

/-- On a live child that answers all four expect rounds, the response's
output is the truncation of the stripped text captured before the marker. -/
theorem bashHandle_out (io : ChildIO) (st : BashState) (cmd : String) (p : BProc)
    (before ec pwd jb : String)
    (hp : st.process = some p) (halive : p.alive = true)
    (h0 : io.round p.consumed = .out before)
    (h1 : io.round (p.consumed + 1) = .out ec)
    (h2 : io.round (p.consumed + 2) = .out pwd)
    (h3 : io.round (p.consumed + 3) = .out jb) :
    (bashHandle io st cmd).2.output = truncateOutput (pyStrip before) := by
  have h2' : io.round (p.consumed + 1 + 1) = .out pwd := by
    rw [show p.consumed + 1 + 1 = p.consumed + 2 from by omega]; exact h2
  have h3' : io.round (p.consumed + 1 + 1 + 1) = .out jb := by
    rw [show p.consumed + 1 + 1 + 1 = p.consumed + 3 from by omega]; exact h3
  obtain ⟨st3, hst3, hproc3⟩ :=
    updateStateAfterCommand_ok io { st with process := some ⟨p.pid, true, p.consumed + 1⟩ }
      ⟨p.pid, true, p.consumed + 1⟩ ec pwd rfl rfl h1 h2'
  have hproc3' : st3.process = some ⟨p.pid, true, p.consumed + 1 + 1 + 1⟩ := by
    simpa using hproc3
  obtain ⟨st4, hst4⟩ :=
    updateBackgroundJobs_ok io st3 ⟨p.pid, true, p.consumed + 1 + 1 + 1⟩ jb hproc3' rfl h3'
  simp [bashHandle, hp, doRound, sendExpect, halive, h0, hst3, hst4]

/-! ## Claim theorems -/

/-- C8 (counterexample): the claimed syntax is not what `str.isidentifier`
enforces.  U+203F UNDERTIE is in XID_Continue (Unicode category Pc,
connector punctuation) but is no letter, digit or underscore, so the name
`a‿b` violates the claimed letters/digits/underscore syntax yet
`EnvironmentName` construction succeeds on it: an invalidly named
identifier does exist. -/
theorem environmentName_accepts_beyond_claimed_syntax :
    EnvironmentName.make undertieXid "a‿b" = some ⟨"a‿b"⟩ ∧
    specBareIdentifier "a‿b" = false := by
  decide

/-- C8 (amended): `EnvironmentName` validates with Python's
`str.isidentifier` — first character in XID_Start or an underscore, the
rest in XID_Continue — so every successful construction round-trips the
stored value, and on ASCII strings (for any Unicode oracle agreeing with
the UCD there) acceptance coincides exactly with the claimed syntax:
letters, digits and underscores only, not digit-first, nonempty.  Beyond
ASCII the accepted set is strictly larger than the claimed syntax, so the
original universal rejection claim fails (see the counterexample). -/
theorem environmentName_make_ascii_iff (u : UnicodeTables)
    (hstart : ∀ c, asciiChar c = true → u.xidStart c = c.isAlpha)
    (hcont : ∀ c, asciiChar c = true → u.xidCont c = (c.isAlphanum || c = '_'))
    (s : String) :
    (∀ e, EnvironmentName.make u s = some e → e = ⟨s⟩) ∧
    (s.data.all asciiChar = true →
      (EnvironmentName.make u s = some ⟨s⟩ ↔ specBareIdentifier s = true) ∧
      (EnvironmentName.make u s = none ↔ specBareIdentifier s = false)) := by
  constructor
  · intro e he
    unfold EnvironmentName.make at he
    by_cases hv : pyIsIdentifier u s = true
    · rw [if_pos hv] at he
      exact (Option.some_inj.mp he).symm
    · rw [if_neg hv] at he
      simp at he
  · intro hascii
    cases hb : specBareIdentifier s <;>
      simp [EnvironmentName.make, pyIsIdentifier_eq_spec u hstart hcont s hascii, hb]

/-- Witness for the amended C8 theorem: the ASCII columns of the UCD and
the valid name `bash`. -/
theorem environmentName_make_ascii_iff_witness :
    (EnvironmentName.make asciiXid "bash" = some ⟨"bash"⟩ ↔
      specBareIdentifier "bash" = true) ∧
    (EnvironmentName.make asciiXid "bash" = none ↔
      specBareIdentifier "bash" = false) :=
  (environmentName_make_ascii_iff asciiXid (fun _ _ => rfl) (fun _ _ => rfl)
    "bash").2 (by decide)

/-- C7 (counterexample): the output cap is not a byte ceiling.  An output of
5242881 Greek alphas occupies 10485762 bytes in UTF-8, above the 10 MiB
limit, yet `handle_command` measures `len` of the decoded string (5242881
characters) and leaves it untruncated, with no truncation notice. -/
theorem bash_truncation_not_byte_ceiling :
    utf8Len (String.mk (List.replicate 5242881 'α')) > MAX_OUTPUT_SIZE ∧
    truncateOutput (String.mk (List.replicate 5242881 'α'))
      = String.mk (List.replicate 5242881 'α') := by
  constructor
  · rw [utf8Len_mk_replicate]
    norm_num [show ('α').utf8Size = 2 from rfl, MAX_OUTPUT_SIZE]
  · rw [truncateOutput, if_neg]
    rw [length_mk_replicate]
    norm_num [MAX_OUTPUT_SIZE]

/-- C7 (amended): the captured output in the response is capped at
`10 * 1024 * 1024` *characters* of the decoded, stripped output (for ASCII
output this coincides with bytes): on a command round whose captured text
exceeds the ceiling, the returned output is exactly the first
`MAX_OUTPUT_SIZE` characters followed by the explicit truncation notice.
The handling is a total function of the oracle, so oversized output cannot
crash it. -/
theorem bash_output_capped (io : ChildIO) (st : BashState) (cmd : String) (p : BProc)
    (before ec pwd jb : String)
    (hp : st.process = some p) (halive : p.alive = true)
    (h0 : io.round p.consumed = .out before)
    (h1 : io.round (p.consumed + 1) = .out ec)
    (h2 : io.round (p.consumed + 2) = .out pwd)
    (h3 : io.round (p.consumed + 3) = .out jb)
    (hbig : (pyStrip before).length > MAX_OUTPUT_SIZE) :
    (bashHandle io st cmd).2.output
      = String.mk ((pyStrip before).data.take MAX_OUTPUT_SIZE) ++ truncationNotice ∧
    (bashHandle io st cmd).2.output.length
      = MAX_OUTPUT_SIZE + truncationNotice.length := by
  have hout : (bashHandle io st cmd).2.output = truncateOutput (pyStrip before) :=
    bashHandle_out io st cmd p before ec pwd jb hp halive h0 h1 h2 h3
  have htr : truncateOutput (pyStrip before)
      = String.mk ((pyStrip before).data.take MAX_OUTPUT_SIZE) ++ truncationNotice := by
    rw [truncateOutput, if_pos hbig]
  refine ⟨hout.trans htr, ?_⟩
  rw [hout, htr]
  have hdata : MAX_OUTPUT_SIZE ≤ (pyStrip before).data.length := le_of_lt hbig
  have hlen : (String.mk ((pyStrip before).data.take MAX_OUTPUT_SIZE)).length
      = MAX_OUTPUT_SIZE := by
    show (List.take MAX_OUTPUT_SIZE (pyStrip before).data).length = MAX_OUTPUT_SIZE
    rw [List.length_take]
    omega
  rw [String.length_append, hlen]

/-- Concrete oversized output used by the C7 witness: one character more
than the cap. -/
def bigBeforeW : String := String.mk (List.replicate 10485761 'x')

/-- Oracle for the C7 witness: the command round delivers the oversized
output, every probe round answers `0`. -/
def childIOW : ChildIO := ⟨fun k => if k = 0 then .out bigBeforeW else .out "0", 1⟩

/-- A started bash state for the C7 witness. -/
def bashStW : BashState := ⟨some ⟨1, true, 0⟩, true, "/", 0, []⟩

/-- C7 witness: `bash_output_capped` applied at a concrete oracle whose
captured output is 10485761 characters of `x`. -/
theorem bash_output_capped_witness :
    (bashHandle childIOW bashStW "cat big").2.output
      = String.mk ((pyStrip bigBeforeW).data.take MAX_OUTPUT_SIZE) ++ truncationNotice := by
  have hbig : (pyStrip bigBeforeW).length > MAX_OUTPUT_SIZE := by
    rw [show pyStrip bigBeforeW = bigBeforeW from pyStrip_replicate _ _ (by decide)]
    rw [show bigBeforeW.length = 10485761 from length_mk_replicate _ _]
    decide
  exact (bash_output_capped childIOW bashStW "cat big" ⟨1, true, 0⟩ bigBeforeW "0" "0" "0"
    rfl rfl rfl rfl rfl rfl hbig).1

/-- C6: when a command on a live child hits end-of-stream at the command
round, `handle_command` returns the EOF failure response and the retained
handle is dead — this is the torn-down mark, since `self._process` stays
non-None and so is never respawned; and on that torn-down state every
subsequent call (any command, any oracle) immediately returns the same
failure response with the state unchanged: it neither blocks on the oracle
nor spawns a new child. -/
theorem bash_eof_teardown (io : ChildIO) (st : BashState) (cmd : String) (p : BProc)
    (hp : st.process = some p) (ha : p.alive = true) (he : io.round p.consumed = .eof) :
    bashHandle io st cmd
      = ({ st with process := some ⟨p.pid, false, p.consumed + 1⟩ },
         ⟨"Bash process terminated unexpectedly", false⟩) ∧
    ∀ (io' : ChildIO) (cmd' : String),
      bashHandle io' { st with process := some ⟨p.pid, false, p.consumed + 1⟩ } cmd'
        = ({ st with process := some ⟨p.pid, false, p.consumed + 1⟩ },
           ⟨"Bash process terminated unexpectedly", false⟩) := by
  constructor
  · simp [bashHandle, doRound, hp, sendExpect, ha, he, errResponse]
  · intro io' cmd'
    simp [bashHandle, doRound, sendExpect, errResponse]

/-- C6 witness: a live child whose stream ends at the next round; the
failing command tears the driver down and the next command fails fast. -/
theorem bash_eof_teardown_witness :
    bashHandle ⟨fun _ => .eof, 3⟩ ⟨some ⟨2, true, 0⟩, true, "/", 0, []⟩ "true"
      = (⟨some ⟨2, false, 1⟩, true, "/", 0, []⟩,
         ⟨"Bash process terminated unexpectedly", false⟩) ∧
    bashHandle ⟨fun _ => .out "ok", 4⟩ ⟨some ⟨2, false, 1⟩, true, "/", 0, []⟩ "echo hi"
      = (⟨some ⟨2, false, 1⟩, true, "/", 0, []⟩,
         ⟨"Bash process terminated unexpectedly", false⟩) := by
  have h := bash_eof_teardown ⟨fun _ => .eof, 3⟩ ⟨some ⟨2, true, 0⟩, true, "/", 0, []⟩
    "true" ⟨2, true, 0⟩ rfl rfl rfl
  exact ⟨h.1, h.2 ⟨fun _ => .out "ok", 4⟩ "echo hi"⟩

theorem take_min_length (l : List α) (k : Nat) : l.take (min k l.length) = l.take k := by
  rcases Nat.le_total k l.length with h | h
  · rw [Nat.min_eq_left h]
  · rw [Nat.min_eq_right h, List.take_length, List.take_of_length_le h]

theorem pySlice_zero_coe (l : List α) (k : Nat) : pySlice l 0 (k : Int) = l.take k := by
  unfold pySlice
  have h1 : ¬((0 : Int) < 0) := by omega
  have h2 : ¬((k : Int) < 0) := by omega
  simp only [h1, h2, if_false]
  have h3 : (min (0 : Int) l.length).toNat = 0 := by omega
  have h4 : (min (k : Int) l.length).toNat = min k l.length := by omega
  rw [h3, h4, List.drop_zero, Nat.sub_zero, take_min_length]

theorem pySlice_zero_sub_one (l : List α) (s : Nat) (h : 1 ≤ s) :
    pySlice l 0 ((s : Int) - 1) = l.take (s - 1) := by
  have : (s : Int) - 1 = ((s - 1 : Nat) : Int) := by omega
  rw [this, pySlice_zero_coe]

theorem handleEditParsed_fresh_eq (root : String) (fs : FS) (st : EditorState)
    (path : String) (s e : Nat) (new : List String) (c : ViewContent) (lines : List String)
    (hfind : st.cached.find? (containsSpan path s e) = some c)
    (hread : readFileLines fs (resolve root path) = some lines)
    (hfresh : pySlice lines ((c.start_line : Int) - 1) (c.end_line : Int) = c.lines) :
    handleEditParsed root fs st path s e new
      = (writeFile fs (resolve root path)
           (pySlice lines 0 ((s : Int) - 1) ++ new ++ lines.drop e),
         ⟨"Edited " ++ path ++ " lines " ++ toString s ++ "-" ++ toString e, true⟩) := by
  simp [handleEditParsed, hfind, hread, hfresh]

theorem takeWhile_append_all {p : α → Bool} {xs : List α} (ys : List α)
    (h : ∀ x ∈ xs, p x = true) :
    (xs ++ ys).takeWhile p = xs ++ ys.takeWhile p := by
  induction xs with
  | nil => simp
  | cons a l ih =>
    simp [List.takeWhile_cons, h a (by simp), ih (fun x hx => h x (by simp [hx]))]

theorem takeWhile_all_true {p : α → Bool} {l : List α} (h : ∀ x ∈ l, p x = true) :
    l.takeWhile p = l := by
  have := takeWhile_append_all (p := p) [] h
  simpa using this

theorem char_digit_not_pyspace (c : Char) (h : c.isDigit = true) : isPySpace c = false := by
  rw [Bool.eq_false_iff]
  intro hs
  simp only [isPySpace, Bool.or_eq_true, decide_eq_true_eq] at hs
  rcases hs with ((((rfl | rfl) | rfl) | rfl) | rfl) | rfl <;> simp [Char.isDigit] at h

theorem pyStrip_data (cs : List Char) (hh : isPySpace (cs.headD ' ') = false)
    (hl : isPySpace (cs.getLastD ' ') = false) :
    (pyStrip (String.mk cs)).data = cs := by
  show ((cs.dropWhile isPySpace).reverse.dropWhile isPySpace).reverse = cs
  have h1 : cs.dropWhile isPySpace = cs := by
    cases cs with
    | nil => rfl
    | cons a l => simp only [List.headD_cons] at hh; simp [List.dropWhile_cons, hh]
  rw [h1]
  have h2 : cs.reverse.dropWhile isPySpace = cs.reverse := by
    cases hrev : cs.reverse with
    | nil => rfl
    | cons b m =>
      have hb : cs.getLast? = some b := by
        rw [List.getLast?_eq_head?_reverse, hrev, List.head?_cons]
      have hbl : cs.getLastD ' ' = b := by
        rw [List.getLastD_eq_getLast?, hb, Option.getD_some]
      rw [hbl] at hl
      simp [List.dropWhile_cons, hl]
  rw [h2, List.reverse_reverse]

/-- C1: an edit fails and leaves the file system untouched when no cached
render from the latest status render covers the requested span for that
path, or when the cached render found for it no longer matches the freshly
re-read file at the cached span (including a file that can no longer be
read); in the staleness case the response names the conflict. -/
theorem edit_rejects_invisible_or_stale (root : String) (fs : FS) (st : EditorState)
    (path : String) (s e : Nat) (new : List String)
    (h : st.cached.find? (containsSpan path s e) = none ∨
         ∃ c, st.cached.find? (containsSpan path s e) = some c ∧
           ∀ ls, readFileLines fs (resolve root path) = some ls →
             pySlice ls ((c.start_line : Int) - 1) (c.end_line : Int) ≠ c.lines) :
    (handleEditParsed root fs st path s e new).1 = fs ∧
    (handleEditParsed root fs st path s e new).2.success = false ∧
    (∀ c ls, st.cached.find? (containsSpan path s e) = some c →
      readFileLines fs (resolve root path) = some ls →
      pySlice ls ((c.start_line : Int) - 1) (c.end_line : Int) ≠ c.lines →
      (handleEditParsed root fs st path s e new).2.output = stalenessMsg path) := by
  have third : ∀ c ls, st.cached.find? (containsSpan path s e) = some c →
      readFileLines fs (resolve root path) = some ls →
      pySlice ls ((c.start_line : Int) - 1) (c.end_line : Int) ≠ c.lines →
      (handleEditParsed root fs st path s e new).2.output = stalenessMsg path := by
    intro c' ls' hc' hread' hne'
    simp [handleEditParsed, hc', hread', hne']
  refine ⟨?_, ?_, third⟩ <;>
  · rcases h with hnone | ⟨c, hc, hdiff⟩
    · simp [handleEditParsed, hnone]
    · rcases hread : readFileLines fs (resolve root path) with _ | ls
      · simp [handleEditParsed, hc, hread]
      · have hne := hdiff ls hread
        simp [handleEditParsed, hc, hread, hne]

/-- C2: with startLine in 1-based range and the first covering cached render
still fresh (the re-read file's slice at the cached span equals the cached
lines), the edit succeeds and the file is rewritten as the first
startLine-1 original lines, the new content, then the original lines after
endLine — every line outside the edited range is preserved, and no other
file changes. -/
theorem edit_splices_fresh_view (root : String) (fs : FS) (st : EditorState)
    (path : String) (s e : Nat) (new : List String) (c : ViewContent) (lines : List String)
    (hs1 : 1 ≤ s) (_hse : s ≤ e)
    (hfind : st.cached.find? (containsSpan path s e) = some c)
    (hread : readFileLines fs (resolve root path) = some lines)
    (hfresh : pySlice lines ((c.start_line : Int) - 1) (c.end_line : Int) = c.lines) :
    (handleEditParsed root fs st path s e new).2.success = true ∧
    readFileLines (handleEditParsed root fs st path s e new).1 (resolve root path)
      = some (lines.take (s - 1) ++ new ++ lines.drop e) ∧
    (∀ q, q ≠ resolve root path →
      (handleEditParsed root fs st path s e new).1.files q = fs.files q) := by
  have hsplice := pySlice_zero_sub_one lines s hs1
  have hfs := handleEditParsed_fresh_eq root fs st path s e new c lines hfind hread hfresh
  refine ⟨by rw [hfs], ?_, ?_⟩
  · rw [hfs, ← hsplice]
    simp [readFileLines, writeFile]
  · intro q hq
    rw [hfs]
    simp [writeFile, hq]

/-- File system for the edit witnesses: one project file whose first line
changed after the render was cached. -/
def fsStale : FS :=
  ⟨fun p => if p = "/proj/f.txt" then some ⟨false, ["new1", "old2"]⟩ else none, fun _ => []⟩

/-- Editor state for the C1 witness: a cached render of lines 1-2 of
`f.txt` predating the change. -/
def stStale : EditorState := ⟨true, [], 5, [⟨1, "f.txt", 1, 2, ["old1", "old2"]⟩]⟩

/-- C1 witness: editing line 1 of a file modified since the render fails
with the staleness message and leaves the file system unchanged. -/
theorem edit_rejects_stale_witness :
    (handleEditParsed "/proj" fsStale stStale "f.txt" 1 1 ["z"]).1 = fsStale ∧
    (handleEditParsed "/proj" fsStale stStale "f.txt" 1 1 ["z"]).2.success = false ∧
    (handleEditParsed "/proj" fsStale stStale "f.txt" 1 1 ["z"]).2.output
      = stalenessMsg "f.txt" := by
  have hread : readFileLines fsStale (resolve "/proj" "f.txt") = some ["new1", "old2"] := rfl
  have hfind : stStale.cached.find? (containsSpan "f.txt" 1 1)
      = some ⟨1, "f.txt", 1, 2, ["old1", "old2"]⟩ := by decide
  have h := edit_rejects_invisible_or_stale "/proj" fsStale stStale "f.txt" 1 1 ["z"]
    (Or.inr ⟨⟨1, "f.txt", 1, 2, ["old1", "old2"]⟩, hfind, by
      intro ls hls
      rw [hread] at hls
      cases hls
      decide⟩)
  exact ⟨h.1, h.2.1, h.2.2 ⟨1, "f.txt", 1, 2, ["old1", "old2"]⟩ ["new1", "old2"]
    hfind hread (by decide)⟩

/-- File system for the C2 witness: a four-line project file. -/
def fsFresh : FS :=
  ⟨fun p => if p = "/proj/g.txt" then some ⟨false, ["a", "b", "c", "d"]⟩ else none, fun _ => []⟩

/-- Editor state for the C2 witness: a fresh cached render of lines 2-3. -/
def stFresh : EditorState := ⟨true, [], 5, [⟨1, "g.txt", 2, 3, ["b", "c"]⟩]⟩

/-- C2 witness: replacing lines 2-3 with two new lines under a fresh cached
render succeeds and splices the file. -/
theorem edit_splices_fresh_view_witness :
    (handleEditParsed "/proj" fsFresh stFresh "g.txt" 2 3 ["X", "Y"]).2.success = true ∧
    readFileLines (handleEditParsed "/proj" fsFresh stFresh "g.txt" 2 3 ["X", "Y"]).1
      (resolve "/proj" "g.txt") = some ["a", "X", "Y", "d"] := by
  have h := edit_splices_fresh_view "/proj" fsFresh stFresh "g.txt" 2 3 ["X", "Y"]
    ⟨1, "g.txt", 2, 3, ["b", "c"]⟩ ["a", "b", "c", "d"]
    (by decide) (by decide) (by decide) rfl (by decide)
  exact ⟨h.1, by simpa using h.2.1⟩

/-- The first line of an inverted-range edit command, as a character list:
`edit <tok> <d1>-<d2>`. -/
def editLineChars (pTok d1 d2 : List Char) : List Char :=
  'e' :: 'd' :: 'i' :: 't' :: ' ' :: (pTok ++ ' ' :: (d1 ++ '-' :: d2))

set_option maxHeartbeats 2000000 in
theorem parseEditFirstLine_tokens (pTok d1 d2 : List Char)
    (hpne : pTok ≠ []) (hpns : ∀ ch ∈ pTok, isPySpace ch = false)
    (hd1ne : d1 ≠ []) (hd1 : ∀ ch ∈ d1, ch.isDigit = true)
    (hd2ne : d2 ≠ []) (hd2 : ∀ ch ∈ d2, ch.isDigit = true) :
    parseEditFirstLine (String.mk (editLineChars pTok d1 d2))
      = some (String.mk pTok, digitsToNat d1, digitsToNat d2) := by
  obtain ⟨t, ts, rfl⟩ : ∃ t ts, pTok = t :: ts := by
    cases pTok with
    | nil => exact absurd rfl hpne
    | cons t ts => exact ⟨t, ts, rfl⟩
  obtain ⟨u, us, rfl⟩ : ∃ u us, d1 = u :: us := by
    cases d1 with
    | nil => exact absurd rfl hd1ne
    | cons u us => exact ⟨u, us, rfl⟩
  have hts : isPySpace t = false := hpns t (by simp)
  have hus : isPySpace u = false := char_digit_not_pyspace u (hd1 u (by simp))
  have hstrip : (pyStrip (String.mk (editLineChars (t :: ts) (u :: us) d2))).data
      = editLineChars (t :: ts) (u :: us) d2 := by
    apply pyStrip_data
    · show isPySpace 'e' = false
      decide
    · have hsplit : editLineChars (t :: ts) (u :: us) d2
          = ('e' :: 'd' :: 'i' :: 't' :: ' ' :: (t :: ts) ++ ' ' :: (u :: us) ++ ['-']) ++ d2 := by
        simp [editLineChars]
      rw [hsplit, List.getLastD_eq_getLast?, List.getLast?_append]
      rcases hlast : d2.getLast? with _ | b
      · exact absurd (List.getLast?_eq_none_iff.mp hlast) hd2ne
      · have hbmem : b ∈ d2 := by
          obtain ⟨h9, hb⟩ := List.mem_getLast?_eq_getLast (l := d2) (x := b) (by simp [hlast])
          rw [hb]
          exact List.getLast_mem h9
        simp only [Option.or_some, Option.getD_some]
        exact char_digit_not_pyspace b (hd2 b hbmem)
  unfold parseEditFirstLine
  rw [hstrip]
  have htake : (editLineChars (t :: ts) (u :: us) d2).take 4 = ['e', 'd', 'i', 't'] := by
    simp [editLineChars, List.take]
  have hdrop4 : (editLineChars (t :: ts) (u :: us) d2).drop 4
      = ' ' :: (t :: ts ++ ' ' :: (u :: us ++ '-' :: d2)) := by
    simp [editLineChars]
  have hsp : isPySpace ' ' = true := by decide
  have hws1 : (' ' :: (t :: ts ++ ' ' :: (u :: us ++ '-' :: d2))).takeWhile isPySpace
      = [' '] := by
    simp [List.takeWhile_cons, hts, hsp]
  have htw : (t :: ts ++ ' ' :: (u :: us ++ '-' :: d2)).takeWhile (fun c => !isPySpace c)
      = t :: ts := by
    rw [takeWhile_append_all _ (by intro ch hch; simp [hpns ch hch])]
    simp [List.takeWhile_cons, isPySpace]
  have hws2 : (' ' :: (u :: us ++ '-' :: d2)).takeWhile isPySpace = [' '] := by
    simp [List.takeWhile_cons, hus, hsp]
  have hd1w : (u :: us ++ '-' :: d2).takeWhile Char.isDigit = u :: us := by
    rw [takeWhile_append_all _ hd1]
    simp [List.takeWhile_cons]
  have hd2w : d2.takeWhile Char.isDigit = d2 := takeWhile_all_true hd2
  simp only [List.cons_append] at htake hdrop4 hws1 htw hws2 hd1w
  simp only [htake, hdrop4, hws1, htw, hws2, hd1w, hd2w,
    List.isEmpty_cons, List.length_cons, List.length_nil, List.drop_succ_cons,
    List.drop_zero, List.drop_left, List.drop_length, List.isEmpty_nil,
    Bool.false_eq_true, if_false, if_true, reduceCtorEq, reduceIte]
  simp [List.isEmpty_iff, hd2ne]

/-- `_parse_edit_command` accepts any `edit <tok> <a>-<b>` first line with no
ordering check between the bounds; remaining command lines become content. -/
theorem parseEditCommand_tokens (pTok d1 d2 : List Char) (content : List String)
    (hpne : pTok ≠ []) (hpns : ∀ ch ∈ pTok, isPySpace ch = false)
    (hd1ne : d1 ≠ []) (hd1 : ∀ ch ∈ d1, ch.isDigit = true)
    (hd2ne : d2 ≠ []) (hd2 : ∀ ch ∈ d2, ch.isDigit = true) :
    parseEditCommand (String.mk (editLineChars pTok d1 d2) :: content)
      = some (String.mk pTok, digitsToNat d1, digitsToNat d2, content) := by
  simp [parseEditCommand,
    parseEditFirstLine_tokens pTok d1 d2 hpne hpns hd1ne hd1 hd2ne hd2]

/-- C10: an edit whose parsed bounds are inverted (startLine > endLine) is
not rejected anywhere: the command parser performs no ordering check (first
conjunct, for arbitrary bound digit strings), and when the first covering
cached render passes the staleness comparison the edit is accepted and the
file is rewritten as the first startLine-1 original lines, the new content,
then the original lines from index endLine on — so the original lines
endLine+1 through startLine-1 appear twice in the result. -/
theorem edit_inverted_range_duplicates (root : String) (fs : FS) (st : EditorState)
    (path : String) (s e : Nat) (new : List String) (c : ViewContent) (lines : List String)
    (hinv : e < s)
    (hfind : st.cached.find? (containsSpan path s e) = some c)
    (hread : readFileLines fs (resolve root path) = some lines)
    (hfresh : pySlice lines ((c.start_line : Int) - 1) (c.end_line : Int) = c.lines) :
    (∀ (pTok d1 d2 : List Char) (content : List String),
        pTok ≠ [] → (∀ ch ∈ pTok, isPySpace ch = false) →
        d1 ≠ [] → (∀ ch ∈ d1, ch.isDigit = true) →
        d2 ≠ [] → (∀ ch ∈ d2, ch.isDigit = true) →
        parseEditCommand (String.mk (editLineChars pTok d1 d2) :: content)
          = some (String.mk pTok, digitsToNat d1, digitsToNat d2, content)) ∧
    (handleEditParsed root fs st path s e new).2.success = true ∧
    readFileLines (handleEditParsed root fs st path s e new).1 (resolve root path)
      = some (lines.take e ++ (lines.drop e).take (s - 1 - e) ++ new
              ++ (lines.drop e).take (s - 1 - e) ++ lines.drop (s - 1)) := by
  have hfs := handleEditParsed_fresh_eq root fs st path s e new c lines hfind hread hfresh
  refine ⟨parseEditCommand_tokens, ?_, ?_⟩
  · simp [hfs]
  · rw [hfs]
    have hs1 : 1 ≤ s := by omega
    have hsum : e + (s - 1 - e) = s - 1 := by omega
    have htake : lines.take (s - 1) = lines.take e ++ (lines.drop e).take (s - 1 - e) := by
      have h9 := List.take_add lines e (s - 1 - e)
      rw [hsum] at h9
      exact h9
    have hdrop : lines.drop e
        = (lines.drop e).take (s - 1 - e) ++ lines.drop (s - 1) := by
      conv_lhs => rw [← List.take_append_drop (s - 1 - e) (lines.drop e)]
      rw [List.drop_drop, hsum]
    simp only [readFileLines, writeFile, if_pos rfl]
    rw [pySlice_zero_sub_one lines s hs1, htake]
    conv_lhs => rw [hdrop]
    simp [List.append_assoc]
    rw [← hdrop]

/-- File system for the C10 witness: a five-line project file. -/
def fsInv : FS :=
  ⟨fun p => if p = "/proj/h.txt" then some ⟨false, ["l1", "l2", "l3", "l4", "l5"]⟩ else none,
   fun _ => []⟩

/-- Editor state for the C10 witness: a fresh cached render of lines 1-5. -/
def stInv : EditorState := ⟨true, [], 9, [⟨1, "h.txt", 1, 5, ["l1", "l2", "l3", "l4", "l5"]⟩]⟩

/-- C10 witness: `edit h.txt 5-3` parses with inverted bounds and applying it
under a fresh render duplicates line 4. -/
theorem edit_inverted_range_witness :
    parseEditCommand ["edit h.txt 5-3", "NEW"] = some ("h.txt", 5, 3, ["NEW"]) ∧
    (handleEditParsed "/proj" fsInv stInv "h.txt" 5 3 ["NEW"]).2.success = true ∧
    readFileLines (handleEditParsed "/proj" fsInv stInv "h.txt" 5 3 ["NEW"]).1
      (resolve "/proj" "h.txt")
      = some ["l1", "l2", "l3", "l4", "NEW", "l4", "l5"] := by
  have h := edit_inverted_range_duplicates "/proj" fsInv stInv "h.txt" 5 3 ["NEW"]
    ⟨1, "h.txt", 1, 5, ["l1", "l2", "l3", "l4", "l5"]⟩ ["l1", "l2", "l3", "l4", "l5"]
    (by decide) (by decide) rfl (by decide)
  refine ⟨by decide, h.2.1, ?_⟩
  have h2 := h.2.2
  simpa using h2

theorem find?_updateFirstView (l : List View) (id : Nat) (f : View → View)
    (hf : ∀ v, (f v).view_id = v.view_id) :
    (updateFirstView l id f).find? (fun v => v.view_id == id)
      = (l.find? (fun v => v.view_id == id)).map f := by
  induction l with
  | nil => rfl
  | cons v rest ih =>
    by_cases hid : v.view_id = id
    · simp [updateFirstView, hid, List.find?_cons, hf]
    · simp [updateFirstView, hid, List.find?_cons, ih]

theorem updateFirstView_comp (l : List View) (id : Nat) (f g : View → View)
    (hf : ∀ v, (f v).view_id = v.view_id) :
    updateFirstView (updateFirstView l id f) id g
      = updateFirstView l id (fun v => g (f v)) := by
  induction l with
  | nil => rfl
  | cons v rest ih =>
    by_cases hid : v.view_id = id
    · simp [updateFirstView, hid, hf]
    · simp [updateFirstView, hid, ih]

theorem updateFirstView_eq_self (l : List View) (id : Nat) (f : View → View)
    (h : ∀ w, l.find? (fun v => v.view_id == id) = some w → f w = w) :
    updateFirstView l id f = l := by
  induction l with
  | nil => rfl
  | cons v rest ih =>
    by_cases hid : v.view_id = id
    · simp [updateFirstView, hid, h v (by simp [List.find?_cons, hid])]
    · simp [updateFirstView, hid]
      exact ih (fun w hw => h w (by simpa [List.find?_cons, hid] using hw))

theorem setIndex_comp (a b : Int) (w : View) :
    ({ ({ w with current_match_index := a }) with current_match_index := b } : View)
      = { w with current_match_index := b } := by
  cases w
  rfl

theorem generateViewContent_of_matches (root : String) (re : RegexEngine) (fs : FS)
    (v : View) (hex : fsExists fs (resolve root v.filepath) = true)
    (hne : findPatternMatches re fs (resolve root v.filepath) v.start_pattern v.end_pattern ≠ []) :
    generateViewContent root re fs v
      = some ((findPatternMatches re fs (resolve root v.filepath)
                v.start_pattern v.end_pattern).getD
              ((v.current_match_index %
                  ((findPatternMatches re fs (resolve root v.filepath)
                    v.start_pattern v.end_pattern).length : Int)).toNat) dummyMatch,
             (findPatternMatches re fs (resolve root v.filepath)
               v.start_pattern v.end_pattern).length) := by
  unfold generateViewContent
  simp [hex, List.isEmpty_iff, hne]

theorem nextMatch_iterate (root : String) (re : RegexEngine) (fs : FS) (st : EditorState)
    (id : Nat) (v : View) (n : Nat)
    (hv : findView st id = some v)
    (hex : fsExists fs (resolve root v.filepath) = true)
    (hn : (findPatternMatches re fs (resolve root v.filepath)
            v.start_pattern v.end_pattern).length = n)
    (hpos : 0 < n) :
    ∀ k : Nat, (fun s => (handleNextMatch root re fs s id).1)^[k + 1] st
      = { st with views :=
          (updateFirstView st.views id (fun w => { w with
            current_match_index := (v.current_match_index + (k + 1 : Nat)) % (n : Int) })) } := by
  have hne : findPatternMatches re fs (resolve root v.filepath)
      v.start_pattern v.end_pattern ≠ [] := by
    intro hempty
    rw [hempty] at hn
    simp at hn
    omega
  intro k
  induction k with
  | zero =>
    rw [Function.iterate_one]
    have hgen := generateViewContent_of_matches root re fs v hex hne
    rw [hn] at hgen
    simp [handleNextMatch, hv, hgen]
  | succ k ih =>
    rw [Function.iterate_succ_apply', ih]
    set a : Int := (v.current_match_index + (k + 1 : Nat)) % (n : Int) with ha
    set vk : View := { v with current_match_index := a } with hvk
    have hfstep : findView { st with views :=
        (updateFirstView st.views id (fun w => { w with current_match_index := a })) } id
        = some vk := by
      show (updateFirstView st.views id
        (fun w => { w with current_match_index := a })).find? (fun v => v.view_id == id) = some vk
      rw [find?_updateFirstView st.views id (fun w => { w with current_match_index := a }) (fun w => rfl)]
      rw [show st.views.find? (fun v => v.view_id == id) = some v from hv]
      rfl
    have hexk : fsExists fs (resolve root vk.filepath) = true := hex
    have hnek : findPatternMatches re fs (resolve root vk.filepath)
        vk.start_pattern vk.end_pattern ≠ [] := hne
    have hgen := generateViewContent_of_matches root re fs vk hexk hnek
    have hnk : (findPatternMatches re fs (resolve root vk.filepath)
        vk.start_pattern vk.end_pattern).length = n := hn
    rw [hnk] at hgen
    simp only [handleNextMatch, hfstep, hgen]
    have hcomp := updateFirstView_comp st.views id
      (fun w => { w with current_match_index := a })
      (fun w => { w with current_match_index := (vk.current_match_index + 1) % (n : Int) })
      (fun w => rfl)
    have hfun : (fun (w : View) => ({ ({ w with current_match_index := a }) with
        current_match_index := (vk.current_match_index + 1) % (n : Int) } : View))
        = (fun (w : View) =>
            { w with current_match_index := (vk.current_match_index + 1) % (n : Int) }) :=
      funext fun w => setIndex_comp a _ w
    rw [hfun] at hcomp
    simp only [hcomp]
    have hidx : (vk.current_match_index + 1) % (n : Int)
        = (v.current_match_index + ((k + 1 : Nat) + 1 : Nat)) % (n : Int) := by
      show (a + 1) % (n : Int) = _
      rw [ha]
      rw [Int.emod_add_emod]
      push_cast
      ring_nf
    rw [hidx]

/-- C9: for a view over unchanged file content with `n ≥ 1` matches and its
current-match index in range (the documented invariant `0 ≤ index < n`),
`next_match` called `n` times returns the editor to exactly its original
state — in particular the current-match index to its original value; each
call recomputes the match set and steps the index modulo `n`.  And
`next_match` or `prev_match` on a view whose patterns currently yield zero
matches is an error: a failed response. -/
theorem next_match_wraparound (root : String) (re : RegexEngine) (fs : FS)
    (st : EditorState) (id : Nat) (v : View) (n : Nat)
    (hv : findView st id = some v)
    (hex : fsExists fs (resolve root v.filepath) = true)
    (hn : (findPatternMatches re fs (resolve root v.filepath)
            v.start_pattern v.end_pattern).length = n)
    (hpos : 0 < n)
    (hlo : 0 ≤ v.current_match_index) (hhi : v.current_match_index < (n : Int)) :
    (fun s => (handleNextMatch root re fs s id).1)^[n] st = st ∧
    (∀ (st' : EditorState) (id' : Nat) (v' : View), findView st' id' = some v' →
      findPatternMatches re fs (resolve root v'.filepath)
        v'.start_pattern v'.end_pattern = [] →
      (handleNextMatch root re fs st' id').2.success = false ∧
      (handlePrevMatch root re fs st' id').2.success = false) := by
  constructor
  · cases n with
    | zero => omega
    | succ k =>
      have hiter := nextMatch_iterate root re fs st id v (k + 1) hv hex hn hpos k
      rw [hiter]
      have hmod : (v.current_match_index + ((k + 1 : Nat) : Int)) % ((k + 1 : Nat) : Int)
          = v.current_match_index := by
        have h1 : (v.current_match_index + ((k + 1 : Nat) : Int)) % ((k + 1 : Nat) : Int)
            = v.current_match_index % ((k + 1 : Nat) : Int) := by
          conv_lhs => rw [show v.current_match_index + ((k + 1 : Nat) : Int)
            = v.current_match_index + ((k + 1 : Nat) : Int) * 1 from by ring]
          rw [Int.add_mul_emod_self_left]
        rw [h1, Int.emod_eq_of_lt hlo hhi]
      simp only [hmod]
      have hself : updateFirstView st.views id
          (fun w => { w with current_match_index := v.current_match_index }) = st.views := by
        apply updateFirstView_eq_self
        intro w hw
        rw [show st.views.find? (fun x => x.view_id == id) = some v from hv] at hw
        cases hw
        rfl
      rw [hself]
  · intro st' id' v' hv' hms'
    have hgen : generateViewContent root re fs v' = none := by
      simp only [generateViewContent, hms']
      cases fsExists fs (resolve root v'.filepath) <;> simp
    constructor <;> simp [handleNextMatch, handlePrevMatch, hv', hgen]

/-- Literal-match regex engine used by the C9 witness: a pattern matches a
line iff the line equals the pattern (faithful to `re.search` for the
anchored literal lines used). -/
def reK : RegexEngine := fun p => .ok (fun line => line == p)

/-- File system for the C9 witness: a four-line file with two `A`..`x`
matches. -/
def fsK : FS :=
  ⟨fun p => if p = "/proj/k.txt" then some ⟨false, ["A", "x", "A", "x"]⟩ else none, fun _ => []⟩

/-- The C9 witness view over `k.txt`. -/
def vK : View := ⟨1, "k.txt", "A", "x", 0, none⟩

/-- Editor state for the C9 witness. -/
def stK : EditorState := ⟨true, [vK], 2, []⟩

/-- A view whose start pattern matches nothing, for the zero-match half of
the C9 witness. -/
def vZ : View := ⟨1, "k.txt", "B", "x", 0, none⟩

/-- Editor state holding the zero-match view. -/
def stZ : EditorState := ⟨true, [vZ], 2, []⟩

/-- C9 witness: two `next_match` calls on a 2-match view restore the state,
and `next_match`/`prev_match` on a zero-match view fail. -/
theorem next_match_wraparound_witness :
    (fun s => (handleNextMatch "/proj" reK fsK s 1).1)^[2] stK = stK ∧
    (handleNextMatch "/proj" reK fsK stZ 1).2.success = false ∧
    (handlePrevMatch "/proj" reK fsK stZ 1).2.success = false := by
  have hms : findPatternMatches reK fsK (resolve "/proj" vK.filepath)
      vK.start_pattern vK.end_pattern
      = [⟨1, 2, ["A", "x"], false⟩, ⟨3, 4, ["A", "x"], false⟩] := by
    simp [findPatternMatches, readFileLines, fsK, reK, vK, resolve,
      findPatternMatchesP, fpmAux, matchAt, MAX_SEARCH_LINES]
  have hmsZ : findPatternMatches reK fsK (resolve "/proj" vZ.filepath)
      vZ.start_pattern vZ.end_pattern = [] := by
    simp [findPatternMatches, readFileLines, fsK, reK, vZ, resolve,
      findPatternMatchesP, fpmAux, matchAt, MAX_SEARCH_LINES]
  have h := next_match_wraparound "/proj" reK fsK stK 1 vK 2
    (by decide) (by decide) (by rw [hms]; rfl) (by decide) (by decide) (by decide)
  exact ⟨h.1, (h.2 stZ 1 vZ (by decide) hmsZ).1, (h.2 stZ 1 vZ (by decide) hmsZ).2⟩

theorem fpmAux_unfold (startP endP : String → Bool) (lines : List String) (i : Nat) :
    fpmAux startP endP lines i
      = if i < lines.length then
          (if startP (lines.getD i "") then
            matchAt endP lines i ::
              fpmAux startP endP lines (matchAt endP lines i).end_line
          else fpmAux startP endP lines (i + 1))
        else [] := by
  rw [fpmAux]
  by_cases h : i < lines.length <;> simp [h]

theorem fpmAux_skip (startP endP : String → Bool) (lines : List String) :
    ∀ (d i : Nat), (∀ m, i ≤ m → m < i + d → startP (lines.getD m "") = false) →
      fpmAux startP endP lines i = fpmAux startP endP lines (i + d) := by
  intro d
  induction d with
  | zero => intro i _; rfl
  | succ d ih =>
    intro i h
    have hstep : fpmAux startP endP lines i = fpmAux startP endP lines (i + 1) := by
      rw [fpmAux_unfold]
      by_cases hi : i < lines.length
      · have hf := h i (Nat.le_refl i) (by omega)
        rw [List.getD_eq_getElem _ _ hi] at hf
        simp [hi, hf]
      · rw [fpmAux_unfold (i := i + 1)]
        simp [hi, show ¬(i + 1 < lines.length) from by omega]
    rw [hstep, ih (i + 1) (fun m h1 h2 => h m (by omega) (by omega))]
    congr 1
    omega

theorem matchAt_start_line (endP : String → Bool) (lines : List String) (k : Nat) :
    (matchAt endP lines k).start_line = k + 1 := by
  unfold matchAt
  rcases hF : ((lines.drop (k + 1)).take MAX_SEARCH_LINES).findIdx? endP with _ | r <;>
    simp [hF]

/-- C3: scanning top to bottom, the first match starts at the first line
satisfying the start pattern; the end pattern is searched from the next line
within a 1000-line window (clipped at end of file); if some line there
satisfies it, the match spans start through the first such line inclusive
and is not truncated; otherwise the match spans start through the window
boundary, or end of file if sooner, and is flagged truncated — in
particular, with no end-pattern line at all and fewer than 1000 lines after
the start, the match runs to end of file, truncated. -/
theorem find_pattern_matches_first (startP endP : String → Bool) (lines : List String) (k : Nat)
    (hk : k < lines.length)
    (hs : startP (lines.getD k "") = true)
    (hfirst : ∀ m, m < k → startP (lines.getD m "") = false) :
    ∃ m tail, findPatternMatchesP startP endP lines = m :: tail ∧
      m.start_line = k + 1 ∧
      ((∃ j, k + 1 ≤ j ∧ j < min (k + 1 + MAX_SEARCH_LINES) lines.length ∧
          endP (lines.getD j "") = true ∧
          (∀ i, k + 1 ≤ i → i < j → endP (lines.getD i "") = false) ∧
          m.end_line = j + 1 ∧ m.truncated = false ∧
          m.lines = (lines.drop k).take (j + 1 - k)) ∨
        ((∀ j, k + 1 ≤ j → j < min (k + 1 + MAX_SEARCH_LINES) lines.length →
            endP (lines.getD j "") = false) ∧
          m.end_line = min (k + MAX_SEARCH_LINES) lines.length ∧
          m.truncated = true ∧
          m.lines = (lines.drop k).take (m.end_line - k))) ∧
      ((∀ j, j < lines.length → endP (lines.getD j "") = false) →
        lines.length < k + 1 + MAX_SEARCH_LINES →
        m.end_line = lines.length ∧ m.truncated = true) := by
  have hs' : startP lines[k] = true := by rwa [List.getD_eq_getElem _ _ hk] at hs
  have hhead : findPatternMatchesP startP endP lines
      = matchAt endP lines k :: fpmAux startP endP lines (matchAt endP lines k).end_line := by
    unfold findPatternMatchesP
    have := fpmAux_skip startP endP lines k 0 (fun m _ h2 => hfirst m (by omega))
    rw [Nat.zero_add] at this
    rw [this, fpmAux_unfold]
    simp [hk, hs']
  have hslicelen : ((lines.drop (k + 1)).take MAX_SEARCH_LINES).length
      = min MAX_SEARCH_LINES (lines.length - (k + 1)) := by
    simp [List.length_take, List.length_drop]
  have hsliceget : ∀ (i : Nat) (h : i < ((lines.drop (k + 1)).take MAX_SEARCH_LINES).length),
      ((lines.drop (k + 1)).take MAX_SEARCH_LINES)[i]
        = lines.getD (k + 1 + i) "" := by
    intro i h
    have hlt : k + 1 + i < lines.length := by
      rw [hslicelen] at h
      omega
    rw [List.getElem_take, List.getElem_drop, List.getD_eq_getElem _ _ hlt]
  refine ⟨matchAt endP lines k, _, hhead, matchAt_start_line endP lines k, ?_, ?_⟩
  · rcases hF : ((lines.drop (k + 1)).take MAX_SEARCH_LINES).findIdx? endP with _ | r
    · right
      have hforall := List.findIdx?_eq_none_iff.mp hF
      refine ⟨?_, ?_, ?_, ?_⟩
      · intro j h1 h2
        have hidx : j - (k + 1) < ((lines.drop (k + 1)).take MAX_SEARCH_LINES).length := by
          rw [hslicelen]
          omega
        have hval := hsliceget (j - (k + 1)) hidx
        rw [show k + 1 + (j - (k + 1)) = j from by omega] at hval
        rw [← hval]
        exact hforall _ (List.getElem_mem hidx)
      · unfold matchAt
        simp only [hF]
        simp [MAX_SEARCH_LINES]
      · unfold matchAt
        simp [hF]
      · unfold matchAt
        simp only [hF]
        simp
    · left
      obtain ⟨hrlen, hrp, hrmin⟩ := List.findIdx?_eq_some_iff_getElem.mp hF
      refine ⟨k + 1 + r, by omega, ?_, ?_, ?_, ?_, ?_, ?_⟩
      · rw [hslicelen] at hrlen
        omega
      · rw [← hsliceget r hrlen]
        exact hrp
      · intro i h1 h2
        have hidx : i - (k + 1) < ((lines.drop (k + 1)).take MAX_SEARCH_LINES).length := by
          rw [hslicelen] at hrlen ⊢
          omega
        have hval := hsliceget (i - (k + 1)) hidx
        rw [show k + 1 + (i - (k + 1)) = i from by omega] at hval
        rw [← hval]
        have h9 := hrmin (i - (k + 1)) (by omega)
        simpa using h9
      · unfold matchAt
        simp [hF]
      · unfold matchAt
        simp [hF]
      · unfold matchAt
        simp only [hF]
        simp
  · intro hnoend hshort
    rcases hF : ((lines.drop (k + 1)).take MAX_SEARCH_LINES).findIdx? endP with _ | r
    · constructor
      · unfold matchAt
        simp only [hF]
        simp [MAX_SEARCH_LINES] at hshort ⊢
        omega
      · unfold matchAt
        simp [hF]
    · obtain ⟨hrlen, hrp, _⟩ := List.findIdx?_eq_some_iff_getElem.mp hF
      have hlt : k + 1 + r < lines.length := by
        rw [hslicelen] at hrlen
        omega
      have := hnoend (k + 1 + r) hlt
      rw [← hsliceget r hrlen] at this
      rw [this] at hrp
      cases hrp

/-- C3 witness: scenario D — a file with a start-pattern line, no end-pattern
line and fewer than 1000 following lines; the match runs to end of file and
is flagged truncated. -/
theorem find_pattern_matches_first_witness :
    ∃ m tail, findPatternMatchesP (fun l => l == "def a") (fun l => l == "def b")
        ["def a", "x", "y"] = m :: tail ∧
      m.start_line = 1 ∧ m.end_line = 3 ∧ m.truncated = true := by
  obtain ⟨m, tail, hm, hstart, hdich, heof⟩ :=
    find_pattern_matches_first (fun l => l == "def a") (fun l => l == "def b")
      ["def a", "x", "y"] 0 (by decide) (by decide) (by intro m hm; omega)
  have h2 := heof (by decide) (by decide)
  exact ⟨m, tail, hm, hstart, h2.1, h2.2⟩

theorem length_updateFirstView (l : List View) (id : Nat) (f : View → View) :
    (updateFirstView l id f).length = l.length := by
  induction l with
  | nil => rfl
  | cons v rest ih =>
    by_cases hid : v.view_id = id <;> simp [updateFirstView, hid, ih]

theorem length_removeFirstView_le (l : List View) (id : Nat) :
    (removeFirstView l id).length ≤ l.length := by
  induction l with
  | nil => simp [removeFirstView]
  | cons v rest ih =>
    by_cases hid : v.view_id = id
    · simp [removeFirstView, hid]
    · simp [removeFirstView, hid]
      omega

theorem handleViewParsed_st (root : String) (re : RegexEngine) (fs : FS)
    (st : EditorState) (path sp ep : String) (lab : Option String)
    (hex : fsExists fs (resolve root path) = true)
    (hbin : isBinaryFile fs (resolve root path) = false) :
    (handleViewParsed root re fs st path sp ep lab).1
      = ⟨true,
         (if st.views.length ≥ MAX_VIEWS then st.views.drop 1 else st.views)
           ++ [⟨st.next_view_id, path, sp, ep, 0, lab⟩],
         st.next_view_id + 1,
         if st.views.length ≥ MAX_VIEWS then
           st.cached.filter (fun c => c.view_id ≠ (st.views.headD defaultView).view_id)
         else st.cached⟩ ∧
    (handleViewParsed root re fs st path sp ep lab).2.success = true := by
  unfold handleViewParsed
  rcases hgen : generateViewContent root re fs
      ⟨st.next_view_id, path, sp, ep, 0, lab⟩ with _ | mt <;>
    (by_cases h3 : st.views.length ≥ MAX_VIEWS <;> simp [hex, hbin, hgen, h3])

theorem handleViewParsed_views_bound (root : String) (re : RegexEngine) (fs : FS)
    (st : EditorState) (path sp ep : String) (lab : Option String)
    (h : st.views.length ≤ MAX_VIEWS) :
    (handleViewParsed root re fs st path sp ep lab).1.views.length ≤ MAX_VIEWS := by
  by_cases h1 : fsExists fs (resolve root path) = true
  · by_cases h2 : isBinaryFile fs (resolve root path) = true
    · unfold handleViewParsed
      simp [h1, h2]
      exact h
    · have hst := (handleViewParsed_st root re fs st path sp ep lab h1
        (by simpa using h2)).1
      rw [hst]
      by_cases h3 : st.views.length ≥ MAX_VIEWS
      · rw [if_pos h3]
        rw [List.length_append, List.length_drop]
        simp [MAX_VIEWS] at h h3 ⊢
        omega
      · rw [if_neg h3]
        rw [List.length_append]
        simp [MAX_VIEWS] at h h3 ⊢
        omega
  · unfold handleViewParsed
    simp [h1]
    exact h

theorem handleViewParsed_evicts (root : String) (re : RegexEngine) (fs : FS)
    (st : EditorState) (path sp ep : String) (lab : Option String)
    (hfull : st.views.length = MAX_VIEWS)
    (hex : fsExists fs (resolve root path) = true)
    (hbin : isBinaryFile fs (resolve root path) = false) :
    (handleViewParsed root re fs st path sp ep lab).1.views
        = st.views.drop 1 ++ [⟨st.next_view_id, path, sp, ep, 0, lab⟩] ∧
    (handleViewParsed root re fs st path sp ep lab).1.cached
        = st.cached.filter (fun c => c.view_id ≠ (st.views.headD defaultView).view_id) ∧
    (handleViewParsed root re fs st path sp ep lab).2.success = true := by
  obtain ⟨hst, hsucc⟩ := handleViewParsed_st root re fs st path sp ep lab hex hbin
  have h3 : st.views.length ≥ MAX_VIEWS := by omega
  rw [hst]
  simp [h3, hsucc]

/-- C5: with at most 3 views held, every editor command leaves at most 3
views (the status render, which can only drop broken views, as well); and a
view successfully created at the 3-view cap removes exactly the oldest view
(its cached render discarded by id), leaving the other views as the very
same records — addressable by their original identifiers — followed by the
new view. -/
theorem editor_view_cap (root : String) (re : RegexEngine) (fs : FS) (st : EditorState)
    (h3 : st.views.length ≤ MAX_VIEWS) :
    (∀ cmd, (editorStep root re fs st cmd).1.views.length ≤ MAX_VIEWS) ∧
    ((getScreen root re fs st).1.views.length ≤ MAX_VIEWS) ∧
    (∀ path sp ep lab, st.views.length = MAX_VIEWS →
      fsExists fs (resolve root path) = true →
      isBinaryFile fs (resolve root path) = false →
      (editorStep root re fs st (.view path sp ep lab)).1.views
          = st.views.drop 1 ++ [⟨st.next_view_id, path, sp, ep, 0, lab⟩] ∧
      (editorStep root re fs st (.view path sp ep lab)).1.cached
          = st.cached.filter (fun c => c.view_id ≠ (st.views.headD defaultView).view_id) ∧
      ∃ r, (editorStep root re fs st (.view path sp ep lab)).2.2 = .ok r ∧
        r.success = true) := by
  refine ⟨?_, ?_, ?_⟩
  · intro cmd
    cases cmd with
    | view p sp ep lab =>
      have hb := handleViewParsed_views_bound root re fs st p sp ep lab h3
      rcases hv : handleViewParsed root re fs st p sp ep lab with ⟨st', r⟩
      rw [hv] at hb
      simpa [editorStep, hv] using hb
    | close id =>
      rcases hfv : findView st id with _ | v
      · simpa [editorStep, handleClose, hfv] using h3
      · have := length_removeFirstView_le st.views id
        simp [editorStep, handleClose, hfv]
        omega
    | nextMatch id =>
      rcases hfv : findView st id with _ | v
      · simpa [editorStep, handleNextMatch, hfv] using h3
      · rcases hg : generateViewContent root re fs v with _ | mt
        · simpa [editorStep, handleNextMatch, hfv, hg] using h3
        · simpa [editorStep, handleNextMatch, hfv, hg, length_updateFirstView] using h3
    | prevMatch id =>
      rcases hfv : findView st id with _ | v
      · simpa [editorStep, handlePrevMatch, hfv] using h3
      · rcases hg : generateViewContent root re fs v with _ | mt
        · simpa [editorStep, handlePrevMatch, hfv, hg] using h3
        · simpa [editorStep, handlePrevMatch, hfv, hg, length_updateFirstView] using h3
    | edit cmdLines =>
      rcases he : handleEdit root fs st cmdLines with ⟨fs', r⟩
      simpa [editorStep, he] using h3
    | create p content =>
      rcases hc : handleCreateParsed root fs p content with ⟨fs', r⟩
      simpa [editorStep, hc] using h3
    | search pat g => simpa [editorStep] using h3
    | viewInvalid => simpa [editorStep] using h3
    | createInvalid => simpa [editorStep] using h3
    | closeInvalid => simpa [editorStep] using h3
    | nextMatchInvalid => simpa [editorStep] using h3
    | prevMatchInvalid => simpa [editorStep] using h3
    | searchInvalid => simpa [editorStep] using h3
    | unknown fl => simpa [editorStep] using h3
  · unfold getScreen
    by_cases he : (!st.used || st.views.isEmpty) = true
    · simp [he]
      exact h3
    · simp only [he, Bool.false_eq_true, if_false]
      calc (st.views.filter
              (fun v => (generateViewContent root re fs v).isSome)).length
          ≤ st.views.length := List.length_filter_le _ _
        _ ≤ MAX_VIEWS := h3
  · intro path sp ep lab hfull hex hbin
    obtain ⟨hviews, hcached, hsucc⟩ :=
      handleViewParsed_evicts root re fs st path sp ep lab hfull hex hbin
    rcases hv : handleViewParsed root re fs st path sp ep lab with ⟨st', r⟩
    rw [hv] at hviews hcached hsucc
    exact ⟨by simpa [editorStep, hv] using hviews,
           by simpa [editorStep, hv] using hcached,
           r, by simp [editorStep, hv], hsucc⟩

/-- File system for the C5 witness. -/
def fs5 : FS :=
  ⟨fun p => if p = "/proj/a.txt" then some ⟨false, ["A"]⟩ else none, fun _ => []⟩

/-- Editor state for the C5 witness: three views (ids 1, 2, 3) at the cap,
with cached renders for ids 1 and 2. -/
def st5 : EditorState :=
  ⟨true,
   [⟨1, "a.txt", "p", "q", 0, none⟩, ⟨2, "a.txt", "p", "q", 0, none⟩,
    ⟨3, "a.txt", "p", "q", 0, none⟩],
   4,
   [⟨1, "a.txt", 1, 1, ["A"]⟩, ⟨2, "a.txt", 1, 1, ["A"]⟩]⟩

/-- C5 witness: creating a fourth view evicts exactly the oldest view and
its cached render, keeps views 2 and 3 unchanged, and succeeds. -/
theorem editor_view_cap_witness :
    (editorStep "/proj" reK fs5 st5 (.view "a.txt" "s" "t" none)).1.views
        = [⟨2, "a.txt", "p", "q", 0, none⟩, ⟨3, "a.txt", "p", "q", 0, none⟩,
           ⟨4, "a.txt", "s", "t", 0, none⟩] ∧
    (editorStep "/proj" reK fs5 st5 (.view "a.txt" "s" "t" none)).1.cached
        = [⟨2, "a.txt", 1, 1, ["A"]⟩] ∧
    ∃ r, (editorStep "/proj" reK fs5 st5 (.view "a.txt" "s" "t" none)).2.2 = .ok r ∧
      r.success = true := by
  have h := editor_view_cap "/proj" reK fs5 st5 (by decide)
  obtain ⟨hv, hc, hr⟩ := h.2.2 "a.txt" "s" "t" none (by decide) (by decide) (by decide)
  refine ⟨hv.trans (by decide), hc.trans (by decide), hr⟩

/-- Does `needle` occur as a contiguous substring of `hay`? -/
def subMatch (needle : List Char) : List Char → Bool
  | [] => needle.isEmpty
  | c :: t => needle.isPrefixOf (c :: t) || subMatch needle t

/-- Substring regex engine: a pattern matches a line iff it occurs in it,
which is `re.search` for literal patterns without metacharacters. -/
def reSub : RegexEngine := fun p => .ok (fun line => subMatch p.data line.data)

/-- File system for the C4 failing input: the project holds one file, and
the absolute glob `/etc/*` expands to a readable text file outside the
project root. -/
def fsC4 : FS :=
  ⟨fun p =>
      if p = "/etc/hosts" then some ⟨false, ["127.0.0.1 x localhost"]⟩
      else if p = "/proj/a.txt" then some ⟨false, ["A"]⟩
      else none,
   fun pat => if pat = "/etc/*" then ["/etc/hosts"] else []⟩

/-- A fresh editor state. -/
def stC4 : EditorState := ⟨false, [], 1, []⟩

/-- C4: the bash and python environments wrap their whole `handle_command`
in a catch-all, but the editor does not: `search "x" /etc/*` reaches
`Path.relative_to` on a glob hit outside the project root, whose
`ValueError` escapes `EditorEnvironment.handle_command` uncaught instead of
becoming a failed response — contradicting §6 of the spec and the
executor's stated expectation that environments catch their own
exceptions. -/
theorem editor_search_raises_uncaught :
    (editorStep "/proj" reSub fsC4 stC4 (.search "x" "/etc/*")).2.2
      = .error "'/etc/hosts' is not in the subpath of '/proj'" := rfl

end Orch
